import Mathlib

set_option maxRecDepth 8000

/-!
# Verification of the SearchAI-Snow product-search core

This file gives a shallow embedding, in Lean 4, of the core pipeline of the
SearchAI-Snow repository (TypeScript): the JSON extraction-and-repair engine
(`src/utils/parser.ts`), the per-record validator (zod `productSchema` in
`src/types/index.ts`), the normalization pipeline (`src/services/filter.service.ts`),
the URL classifier and URL filter (`src/utils/url-validator.ts`), the image
resolver (`src/services/image-resolver.service.ts`) and the two provider paths
of `src/services/search.service.ts` / `src/services/serpapi.service.ts`.

Conventions of the embedding:
* JavaScript strings are `String` (lists of characters); the handful of string
  operations the code uses (`trim`, `toLowerCase`, `replace` with the concrete
  regexes appearing in the source, `split`) are modelled by executable
  functions on `List Char`, one per regex, each documented with the regex it
  models.  JavaScript regex replacement scans left to right and continues
  after each match; the models follow that discipline.
* JavaScript numbers are `ℚ` (the values occurring in the pipeline are exact
  decimal fractions, so rational arithmetic is faithful).
* `undefined`/missing values are `Option`; JavaScript truthiness tests on
  strings, numbers and options are modelled by explicit `truthy…` helpers
  (`""`, `0`, `null`/`undefined` are falsy).
* Outbound I/O (the axios page fetch of the image resolver) is an external
  collaborator and is passed in as an oracle `fetch : String → Option String`
  (`none` models a thrown network error); the process-wide image cache
  (a JS `Map`) is explicit state threaded through the resolver.
* Recursions that are not structural use an explicit fuel argument so that
  every definition reduces in the kernel (no well-founded recursion).
-/

namespace SearchAI

/-! ## Character classes and basic string models -/

/-- JavaScript regex `\s` (the ASCII part; the inputs of this development are
ASCII).  Also the character class trimmed by `String.prototype.trim`. -/
def isWsChar (c : Char) : Bool :=
  c = ' ' || c = '\t' || c = '\n' || c = '\r' || c = '\x0b' || c = '\x0c'

/-- JSON (RFC 8259) insignificant whitespace, as accepted by `JSON.parse`. -/
def isJsonWs (c : Char) : Bool :=
  c = ' ' || c = '\t' || c = '\n' || c = '\r'

/-- ASCII lower-casing, modelling `String.prototype.toLowerCase` on the ASCII
alphabet the embedded inputs use. -/
def charLower (c : Char) : Char :=
  if 'A' ≤ c ∧ c ≤ 'Z' then Char.ofNat (c.toNat + 32) else c

/-- `String.prototype.toLowerCase` (ASCII model). -/
def strLower (s : String) : String := String.mk (s.data.map charLower)

/-- `String.prototype.trim`: drop leading and trailing whitespace. -/
def trimChars (l : List Char) : List Char :=
  ((l.dropWhile isWsChar).reverse.dropWhile isWsChar).reverse

/-- Count occurrences of a character, modelling `(s.match(/c/g) || []).length`. -/
def countChar (c : Char) (l : List Char) : Nat := (l.filter (fun d => d = c)).length

/-- Does `pat` occur as a contiguous substring of `l`?  Models a
case-sensitive regex containment test for a literal pattern. -/
def containsSub (pat : List Char) : List Char → Bool
  | [] => pat.isEmpty
  | c :: rest => pat.isPrefixOf (c :: rest) || containsSub pat rest

/-- Does `tok` occur in `l` immediately followed by a character satisfying
`k`?  Models regexes of the shape `tok X` with `X` a one-character class
followed by `+` (one occurrence of the class suffices for the `+`). -/
def containsTokenThen (tok : List Char) (k : Char → Bool) : List Char → Bool
  | [] => false
  | c :: rest =>
    (tok.isPrefixOf (c :: rest) &&
      (match (c :: rest).drop tok.length with
       | d :: _ => k d
       | [] => false)) ||
    containsTokenThen tok k rest

/-- Does `l` contain a run of at least six decimal digits?  Models the regex
`\d\x7b6,\x7d`. -/
def hasSixDigitRun (l : List Char) (run : Nat) : Bool :=
  match l with
  | [] => false
  | c :: rest =>
    if c.isDigit then
      if run + 1 ≥ 6 then true else hasSixDigitRun rest (run + 1)
    else hasSixDigitRun rest 0

/-- Split on a separator character, modelling `String.prototype.split`. -/
def splitOnChar (sep : Char) : List Char → List (List Char)
  | [] => [[]]
  | c :: rest =>
    match splitOnChar sep rest with
    | [] => [[]]
    | seg :: segs => if c = sep then [] :: seg :: segs else (c :: seg) :: segs

/-! ## The JSON value model and `JSON.parse`

`Json` is the in-memory document produced by `JSON.parse`: the
"document"/"record" type of the specification.  Objects are ordered key/value
lists (JavaScript objects preserve insertion order; a duplicate key overwrites
the value in place, which `objInsert` models). -/

inductive Json where
  | null : Json
  | bool : Bool → Json
  | num : ℚ → Json
  | str : String → Json
  | arr : List Json → Json
  | obj : List (String × Json) → Json

/-- Insert a key into an object under construction: a duplicate key keeps the
original position and overwrites the value, as in a JavaScript object. -/
def objInsert (kvs : List (String × Json)) (k : String) (v : Json) :
    List (String × Json) :=
  if kvs.any (fun e => e.1 = k) then
    kvs.map (fun e => if e.1 = k then (k, v) else e)
  else kvs ++ [(k, v)]

/-- Look a key up in a parsed object. -/
def objGet (kvs : List (String × Json)) (k : String) : Option Json :=
  (kvs.find? (fun e => e.1 = k)).map (fun e => e.2)

/-- Parse the body of a JSON string literal after the opening quote; returns
the string and the remaining input.  Handles the escapes of RFC 8259 and
rejects raw control characters, as `JSON.parse` does. -/
def parseStringBody : List Char → Option (List Char × List Char)
  | [] => none
  | c :: rest =>
    if c = '"' then some ([], rest)
    else if c.toNat < 32 then none
    else if c = '\\' then
      match rest with
      | [] => none
      | e :: rest2 =>
        let simple : Option Char :=
          if e = '"' then some '"'
          else if e = '\\' then some '\\'
          else if e = '/' then some '/'
          else if e = 'b' then some '\x08'
          else if e = 'f' then some '\x0c'
          else if e = 'n' then some '\n'
          else if e = 'r' then some '\r'
          else if e = 't' then some '\t'
          else none
        match simple with
        | some d =>
          match parseStringBody rest2 with
          | some (s, rem) => some (d :: s, rem)
          | none => none
        | none =>
          if e = 'u' then
            match rest2 with
            | h1 :: h2 :: h3 :: h4 :: rest3 =>
              let hexVal : Char → Option Nat := fun h =>
                if h.isDigit then some (h.toNat - 48)
                else if 'a' ≤ h ∧ h ≤ 'f' then some (h.toNat - 87)
                else if 'A' ≤ h ∧ h ≤ 'F' then some (h.toNat - 55)
                else none
              match hexVal h1, hexVal h2, hexVal h3, hexVal h4 with
              | some a, some b, some c2, some d2 =>
                let code := ((a * 16 + b) * 16 + c2) * 16 + d2
                match parseStringBody rest3 with
                | some (s, rem) => some (Char.ofNat code :: s, rem)
                | none => none
              | _, _, _, _ => none
            | _ => none
          else none
    else
      match parseStringBody rest with
      | some (s, rem) => some (c :: s, rem)
      | none => none

/-- Parse an unsigned decimal digit run; returns digits-as-Nat, the number of
digits, and the rest. -/
def parseDigits : List Char → Nat → Nat → (Nat × Nat × List Char)
  | [], acc, n => (acc, n, [])
  | c :: rest, acc, n =>
    if c.isDigit then parseDigits rest (acc * 10 + (c.toNat - 48)) (n + 1)
    else (acc, n, c :: rest)

/-- Parse the exponent digits (with optional sign) and apply them to `base`. -/
def finishExp (base : ℚ) (l : List Char) : Option (ℚ × List Char) :=
  let (eneg, l1) := match l with
    | '-' :: rest => (true, rest)
    | '+' :: rest => (false, rest)
    | _ => (false, l)
  let (ev, evLen, l2) := parseDigits l1 0 0
  if evLen = 0 then none
  else
    let p : ℚ := (10 : ℚ) ^ ev
    some (if eneg then base / p else base * p, l2)

/-- Attach an optional exponent (after `e`/`E`) and return the number. -/
def finishNumber (base : ℚ) (l : List Char) : Option (ℚ × List Char) :=
  match l with
  | 'e' :: rest => finishExp base rest
  | 'E' :: rest => finishExp base rest
  | _ => some (base, l)

/-- Parse a JSON number (RFC 8259 grammar: no leading zeros, optional
fraction and exponent), as `JSON.parse` accepts it, into a rational. -/
def parseNumber (l : List Char) : Option (ℚ × List Char) :=
  let (neg, l1) := match l with
    | '-' :: rest => (true, rest)
    | _ => (false, l)
  match l1 with
  | [] => none
  | c :: _ =>
    if ¬ c.isDigit then none
    else
      let (ip, ipLen, l2) := parseDigits l1 0 0
      if ipLen = 0 then none
      else if c = '0' ∧ ipLen > 1 then none
      else
        let withSign : ℚ → ℚ := fun q => if neg then -q else q
        match l2 with
        | '.' :: rest =>
          let (fp, fpLen, l3) := parseDigits rest 0 0
          if fpLen = 0 then none
          else finishNumber (withSign ((ip : ℚ) + (fp : ℚ) / (10 : ℚ) ^ fpLen)) l3
        | _ => finishNumber (withSign (ip : ℚ)) l2

/-- Combine a parsed object member with the members parsed after it: a
duplicate key keeps the position of its first occurrence but takes the value
of its last occurrence, as in a JavaScript object literal. -/
def objCons (k : String) (v : Json) (kvs : List (String × Json)) :
    List (String × Json) :=
  match objGet kvs k with
  | some v2 => (k, v2) :: kvs.filter (fun e => e.1 ≠ k)
  | none => (k, v) :: kvs

/-- The recursive core of `JSON.parse`, as one fuelled function (structural on
the fuel, so that it reduces in the kernel).  The mode selects what is being
parsed: `0` a value, `1` the tail of a non-empty array (up to and including
`]`), `2` the tail of a non-empty object (up to and including the closing
brace).  The three results are transported in a `Json` value: mode `1`
returns `Json.arr`, mode `2` returns `Json.obj`. -/
def parseF : Nat → Nat → List Char → Option (Json × List Char)
  | 0, _, _ => none
  | fuel + 1, 0, l =>
    let l := l.dropWhile isJsonWs
    match l with
    | [] => none
    | c :: rest =>
      if c = 'n' then
        if ['u', 'l', 'l'].isPrefixOf rest then some (Json.null, rest.drop 3) else none
      else if c = 't' then
        if ['r', 'u', 'e'].isPrefixOf rest then some (Json.bool true, rest.drop 3) else none
      else if c = 'f' then
        if ['a', 'l', 's', 'e'].isPrefixOf rest then some (Json.bool false, rest.drop 4)
        else none
      else if c = '"' then
        match parseStringBody rest with
        | some (s, rem) => some (Json.str (String.mk s), rem)
        | none => none
      else if c = '[' then
        match rest.dropWhile isJsonWs with
        | ']' :: rem => some (Json.arr [], rem)
        | _ => parseF fuel 1 rest
      else if c = '\x7b' then
        match rest.dropWhile isJsonWs with
        | '\x7d' :: rem => some (Json.obj [], rem)
        | _ => parseF fuel 2 rest
      else
        match parseNumber (c :: rest) with
        | some (q, rem) => some (Json.num q, rem)
        | none => none
  | fuel + 1, 1, l =>
    match parseF fuel 0 l with
    | none => none
    | some (v, rem) =>
      match rem.dropWhile isJsonWs with
      | ',' :: rem2 =>
        match parseF fuel 1 rem2 with
        | some (Json.arr xs, rem3) => some (Json.arr (v :: xs), rem3)
        | _ => none
      | ']' :: rem2 => some (Json.arr [v], rem2)
      | _ => none
  | fuel + 1, _, l =>
    match l.dropWhile isJsonWs with
    | '"' :: rest =>
      match parseStringBody rest with
      | none => none
      | some (k, rem) =>
        match rem.dropWhile isJsonWs with
        | ':' :: rem2 =>
          match parseF fuel 0 rem2 with
          | none => none
          | some (v, rem3) =>
            match rem3.dropWhile isJsonWs with
            | ',' :: rem4 =>
              match parseF fuel 2 rem4 with
              | some (Json.obj kvs, rem5) =>
                some (Json.obj (objCons (String.mk k) v kvs), rem5)
              | _ => none
            | '\x7d' :: rem4 => some (Json.obj [(String.mk k, v)], rem4)
            | _ => none
        | _ => none
    | _ => none

/-- `JSON.parse` on a character list: `none` models a thrown `SyntaxError`. -/
def jsonParseL (l : List Char) : Option Json :=
  match parseF (2 * l.length + 2) 0 l with
  | some (v, rem) => if (rem.dropWhile isJsonWs).isEmpty then some v else none
  | none => none

/-- `JSON.parse(s)` as a total function: `none` models a thrown
`SyntaxError`. -/
def jsonParse (s : String) : Option Json := jsonParseL s.data

/-! ## The repair chain (`fixCommonJsonIssues`, `src/utils/parser.ts` 53-127)

Each regex replacement of the source is modelled by one executable function,
named after what it repairs, in the exact order of the source. -/

/-- Source line 55: drop a leading byte-order mark (`replace` of `^﻿`). -/
def stripBOM : List Char → List Char
  | c :: rest => if c = Char.ofNat 0xFEFF then rest else c :: rest
  | l => l

/-- The three backticks opening or closing a fenced code block. -/
def fenceMarker : List Char := ['`', '`', '`']

/-- The three fence-marker replacements:
`replace(/^` + "```" + `json\s*/i, '')`, then `replace(/^` + "```" + `\s*/i, '')`,
then `replace(/\s*` + "```" + `$/i, '')`. -/
def stripFenceMarkers (l : List Char) : List Char :=
  let l :=
    if fenceMarker.isPrefixOf l ∧ ['j', 's', 'o', 'n'].isPrefixOf ((l.drop 3).map charLower)
    then (l.drop 7).dropWhile isWsChar else l
  let l := if fenceMarker.isPrefixOf l then (l.drop 3).dropWhile isWsChar else l
  let r := l.reverse
  if fenceMarker.isPrefixOf r then ((r.drop 3).dropWhile isWsChar).reverse else l

/-- "Remove any text before the first `\x7b` or `[`" (source lines 61-73):
drop the prefix before the first opening brace or bracket, if any. -/
def dropBeforeFirstOpen (l : List Char) : List Char :=
  match l.findIdx? (fun c => c = '\x7b' || c = '[') with
  | some i => l.drop i
  | none => l

/-- Does the list match `^\s*[\x7d\]]` (whitespace then a closing brace or
bracket)? -/
def wsCloserFlag : List Char → Bool
  | [] => false
  | c :: rest =>
    if c = '\x7d' ∨ c = ']' then true
    else if isWsChar c then wsCloserFlag rest else false

/-- One global pass of `replace(/,(\s*[\x7d\]])/g, '$1')`: every comma whose
following text is whitespace then a closing brace/bracket is dropped (the
whitespace and the closer are kept by the `$1` back-reference).  Matches of
this regex cannot overlap, so dropping every such comma in one sweep is the
left-to-right global replacement. -/
def rtcOnce : List Char → List Char
  | [] => []
  | c :: rest =>
    if c = ',' ∧ wsCloserFlag rest then rtcOnce rest else c :: rtcOnce rest

/-- The source's `while (prevLength !== jsonString.length)` loop: iterate
`rtcOnce` until the length no longer changes.  Each pass that changes the
string shortens it, so `l.length + 1` rounds of fuel always reach the fixed
point. -/
def rtcFix : Nat → List Char → List Char
  | 0, l => l
  | fuel + 1, l =>
    let t := rtcOnce l
    if t.length = l.length then t else rtcFix fuel t

/-- One global pass of `replace(/A(\s*)B/g, repl)` for one-character tokens
`A`, `B`: at each un-consumed `A` followed by whitespace then `B`, emit the
literal replacement (which discards the matched whitespace) and continue
after the `B`, as a JavaScript global replacement does. -/
def sepFixF (a b : Char) (repl : List Char) : Nat → List Char → List Char
  | 0, l => l
  | _ + 1, [] => []
  | fuel + 1, c :: rest =>
    if c = a then
      match rest.dropWhile isWsChar with
      | d :: rest3 =>
        if d = b then repl ++ sepFixF a b repl fuel rest3
        else c :: sepFixF a b repl fuel rest
      | [] => c :: sepFixF a b repl fuel rest
    else c :: sepFixF a b repl fuel rest

/-- `sepFixF` with enough fuel for the whole list. -/
def sepFix (a b : Char) (repl : List Char) (l : List Char) : List Char :=
  sepFixF a b repl (l.length + 1) l

/-- The six "fix missing commas" replacements of source lines 83-88, in
source order. -/
def sepFixAll (l : List Char) : List Char :=
  let l := sepFix '\x7d' '\x7b' ['\x7d', ',', '\n', '\x7b'] l
  let l := sepFix '\x7d' '"' ['\x7d', ',', '\n', '"'] l
  let l := sepFix ']' '\x7b' [']', ',', '\n', '\x7b'] l
  let l := sepFix ']' '"' [']', ',', '\n', '"'] l
  let l := sepFix '"' '\x7b' ['"', ',', '\n', '\x7b'] l
  sepFix '"' '[' ['"', ',', '\n', '['] l

/-- Source line 92, `replace(/([^\\])"([^":,\x7b\x7d\[\]\s][^"]*[^\\])"/g, '$1"$2"')`:
the replacement template reassembles exactly the matched text
(`$1` + quote + `$2` + quote), so this pass is the identity on every input. -/
def fixUnescapedQuotes (l : List Char) : List Char := l

/-- Source lines 95-98: remove the control characters `[\x00-\x1F\x7F]`,
keeping newline, carriage return and tab. -/
def stripControlChars (l : List Char) : List Char :=
  l.filter (fun c =>
    ¬ ((c.toNat < 32 || c.toNat = 127) && c ≠ '\n' && c ≠ '\r' && c ≠ '\t'))

/-- Count the matches of `/(?<!\\)"/g`: quotes whose immediately preceding
character is not a backslash (`prev` is the previous character). -/
def cuqAux : Option Char → List Char → Nat
  | _, [] => 0
  | prev, c :: rest =>
    (if c = '"' ∧ prev ≠ some '\\' then 1 else 0) + cuqAux (some c) rest

/-- Source lines 100-106: if the number of unescaped quotes is odd, close the
last unterminated string.  The replacement `replace(/("[^"]*?)$/, '$1"')`
matches from the last quote of the string to its end and appends one quote
there, i.e. it appends `"` to the whole string. -/
def closeUnterminatedString (l : List Char) : List Char :=
  if cuqAux none l % 2 = 1 then l ++ ['"'] else l

/-- Source line 115, `replace(/,\s*$/, '')`: remove one trailing comma
together with the whitespace following it, when the string ends that way. -/
def stripTrailingCommaEnd (l : List Char) : List Char :=
  match l.reverse.dropWhile isWsChar with
  | ',' :: rest => rest.reverse
  | _ => l

/-- Source line 116, `replace(/"[^"]*$/, '"')`: the match runs from the last
quote of the string to its end and is replaced by a single quote, i.e.
everything after the last quote is removed (the quote is kept).  A string
with no quote is unchanged. -/
def truncateAfterLastQuote (l : List Char) : List Char :=
  if l.any (fun c => c = '"') then (l.reverse.dropWhile (fun c => c ≠ '"')).reverse
  else l

/-- The repair transformations of source lines 55-106, i.e. everything
before the brace/bracket counting of lines 109-112, in source order. -/
def repairStage (l : List Char) : List Char :=
  let l := trimChars (stripBOM l)
  let l := stripFenceMarkers l
  let l := dropBeforeFirstOpen l
  let l := rtcFix (l.length + 1) l
  let l := sepFixAll l
  let l := fixUnescapedQuotes l
  let l := stripControlChars l
  closeUnterminatedString l

/-- `fixCommonJsonIssues` (source lines 53-127) on a character list: the
repair stage, then the final balancing.  The brace/bracket counts used for
the balancing are taken, as in the source, *before* the two trailing
truncations of lines 115-116. -/
def fixChain (l : List Char) : List Char :=
  let m := repairStage l
  truncateAfterLastQuote (stripTrailingCommaEnd m)
    ++ List.replicate (countChar '[' m - countChar ']' m) ']'
    ++ List.replicate (countChar '\x7b' m - countChar '\x7d' m) '\x7d'

/-- `fixCommonJsonIssues` on strings. -/
def fixCommonJsonIssues (s : String) : String := String.mk (fixChain s.data)

/-! ## `extractJson` (source lines 20-48) and document recovery
(`parseProducts` lines 135-187) -/

/-- Index of the first occurrence of `pat` as a substring, if any. -/
def findSubIdx (pat : List Char) : List Char → Option Nat
  | [] => if pat.isEmpty then some 0 else none
  | c :: rest =>
    if pat.isPrefixOf (c :: rest) then some 0
    else (findSubIdx pat rest).map (fun i => i + 1)

/-- The capture of `content.match(/` + "```" + `(?:json)?\s*([\s\S]*?)` + "```" + `/)`:
the text between the first fence (after an optional literal `json` tag and
greedy whitespace) and the next fence. -/
def codeBlockCapture (l : List Char) : Option (List Char) :=
  match findSubIdx fenceMarker l with
  | none => none
  | some i =>
    let after := l.drop (i + 3)
    let after := if ['j', 's', 'o', 'n'].isPrefixOf after then after.drop 4 else after
    let after := after.dropWhile isWsChar
    match findSubIdx fenceMarker after with
    | none => none
    | some j => some (after.take j)

/-- Index of the last occurrence of a character, if any. -/
def lastIdxOf (c : Char) (l : List Char) : Option Nat :=
  match l.reverse.findIdx? (fun d => d = c) with
  | some j => some (l.length - 1 - j)
  | none => none

/-- The match of `content.match(/\x7b[\s\S]*\x7d/)`: from the first opening
brace to the last closing brace after it (the greedy match). -/
def braceSpan (l : List Char) : Option (List Char) :=
  match l.findIdx? (fun c => c = '\x7b') with
  | none => none
  | some i =>
    let sub := l.drop i
    match lastIdxOf '\x7d' sub with
    | some k => if 1 ≤ k then some (sub.take (k + 1)) else none
    | none => none

/-- `extractJson` (source lines 20-48): return the content verbatim if it
already parses; otherwise extract a fenced code block (trimmed) or the first
top-level brace span, repaired by `fixCommonJsonIssues`. -/
def extractJson (content : String) : Option String :=
  if (jsonParse content).isSome then some content
  else
    match codeBlockCapture content.data with
    | some interior => some (String.mk (fixChain (trimChars interior)))
    | none =>
      match braceSpan content.data with
      | some sub => some (String.mk (fixChain sub))
      | none => none

/-- The capture of `/"products"\s*:\s*(\[[\s\S]*)/i` (source line 153): from
the `[` following a case-insensitive `"products"` key to the end. -/
def productsKeyCapture : List Char → Option (List Char)
  | [] => none
  | c :: rest =>
    if ['"', 'p', 'r', 'o', 'd', 'u', 'c', 't', 's', '"'].isPrefixOf
        ((c :: rest).map charLower) then
      match ((c :: rest).drop 10).dropWhile isWsChar with
      | ':' :: after2 =>
        match after2.dropWhile isWsChar with
        | '[' :: after3 => some ('[' :: after3)
        | _ => productsKeyCapture rest
      | _ => productsKeyCapture rest
    else productsKeyCapture rest

/-- The bracket-depth scan of source lines 158-170: the position one past the
character at which the depth returns to zero, if it does. -/
def findDepthZero : List Char → Int → Nat → Option Nat
  | [], _, _ => none
  | c :: rest, depth, pos =>
    let depth := if c = '[' then depth + 1 else depth
    let depth := if c = ']' then depth - 1 else depth
    if depth = 0 then some (pos + 1) else findDepthZero rest depth (pos + 1)

/-- Truncate the captured products array at its matching closing bracket
(source lines 156-170; no truncation if the depth never returns to zero). -/
def arrayDepthSpan (l : List Char) : List Char :=
  match findDepthZero l 0 0 with
  | some e => l.take e
  | none => l

/-- The products-array fallback of `parseProducts` (source lines 152-179):
extract just the products array, repair it, parse it, and wrap it into a
document with an empty summary. -/
def productsArrayFallback (l : List Char) : Option Json :=
  match productsKeyCapture l with
  | none => none
  | some arrPart =>
    match jsonParseL (fixChain (arrayDepthSpan arrPart)) with
    | some products =>
      some (Json.obj [("products", products), ("search_summary", Json.str "")])
    | none => none

/-- The document-recovery chain of `parseProducts` (source lines 135-187):
`extractJson`, then `JSON.parse`, then a second repair pass, then the
products-array fallback; `none` models "no document could be recovered"
(the `Invalid JSON` / `Could not extract JSON` error paths). -/
def recoverDocument (content : String) : Option Json :=
  match extractJson content with
  | none => none
  | some jsonString =>
    match jsonParse jsonString with
    | some v => some v
    | none =>
      match jsonParse (fixCommonJsonIssues jsonString) with
      | some v => some v
      | none => productsArrayFallback jsonString.data

/-! ## The `Product` data model (`src/types/index.ts`) -/

/-- The `priceSchema` record shape. -/
structure Price where
  value : Option ℚ := none
  min : Option ℚ := none
  max : Option ℚ := none
  currency : String := "BRL"
  formatted : Option String := none
deriving DecidableEq, Repr

/-- The `sourceSchema` record shape. -/
structure Source where
  name : String
  url : Option String := none
deriving DecidableEq, Repr

/-- The `productSchema` record shape: the canonical output unit. -/
structure Product where
  name : String
  description : Option String := none
  price : Option Price := none
  source : Option Source := none
  specs : Option (List String) := none
  relevance_score : Option ℚ := none
  image_url : Option String := none
  brand : Option String := none
  category : Option String := none
  rating : Option ℚ := none
  availability : Option String := none
deriving DecidableEq, Repr

/-- JavaScript truthiness of an optional string (`undefined` and `""` are
falsy). -/
def truthyStrOpt : Option String → Bool
  | none => false
  | some s => decide (s ≠ "")

/-- JavaScript truthiness of an optional number (`undefined` and `0` are
falsy; the numbers of this pipeline are never `NaN`). -/
def truthyNumOpt : Option ℚ → Bool
  | none => false
  | some q => decide (q ≠ 0)

/-! ## The URL model

`isSearchUrl`/`isProductUrl` and the zod `.url()` validator go through the
host's WHATWG `new URL`.  `parseURL` is the executable model of that
constructor used throughout this development: it requires a scheme, parses an
authority after `//` (refusing an empty or whitespace-containing host, which
`new URL` refuses for the URLs this pipeline sees), and splits pathname and
query; `none` models a thrown `TypeError`.  Scheme and host are lowercased as
the constructor normalizes them; percent-encoding of unusual path characters
is not modelled (no claim depends on it). -/

structure URLParts where
  scheme : String
  host : String
  pathname : String
  search : String
deriving DecidableEq, Repr

/-- Characters allowed in a scheme after the initial letter. -/
def isSchemeChar (c : Char) : Bool :=
  c.isAlpha || c.isDigit || c = '+' || c = '-' || c = '.'

/-- The model of the WHATWG `new URL(s)` constructor (absolute form). -/
def parseURL (s : String) : Option URLParts :=
  match s.data with
  | [] => none
  | c :: _ =>
    if ¬ c.isAlpha then none
    else
      let scheme := s.data.takeWhile isSchemeChar
      match s.data.drop scheme.length with
      | ':' :: rest2 =>
        match rest2 with
        | '/' :: '/' :: rest3 =>
          let host := rest3.takeWhile (fun c => c ≠ '/' && c ≠ '?' && c ≠ '#')
          if host.isEmpty ∨ host.any isWsChar then none
          else
            let rest4 := rest3.drop host.length
            let path := rest4.takeWhile (fun c => c ≠ '?' && c ≠ '#')
            let rest5 := rest4.drop path.length
            let search := rest5.takeWhile (fun c => c ≠ '#')
            some { scheme := String.mk (scheme.map charLower),
                   host := String.mk (host.map charLower),
                   pathname := String.mk (if path.isEmpty then ['/'] else path),
                   search := String.mk search }
        | _ =>
          let path := rest2.takeWhile (fun c => c ≠ '?' && c ≠ '#')
          let rest5 := rest2.drop path.length
          let search := rest5.takeWhile (fun c => c ≠ '#')
          some { scheme := String.mk (scheme.map charLower), host := "",
                 pathname := String.mk path, search := String.mk search }
      | _ => none

/-- `urlObj.href` of the model. -/
def hrefOf (u : URLParts) : String :=
  if u.host = "" then u.scheme ++ ":" ++ u.pathname ++ u.search
  else u.scheme ++ "://" ++ u.host ++ u.pathname ++ u.search

/-- The zod `z.string().url()` validator: accepted iff `new URL` accepts. -/
def isValidUrlZod (s : String) : Bool := (parseURL s).isSome

/-! ## The zod schemas as record validators (`safeParse`)

`…SchemaParse j = some p` models a successful `safeParse`: the input must be
an object, unknown keys are stripped, `undefined` (an absent key) passes an
optional field but `null` and wrong types fail it.  String lengths are
character counts (the inputs are ASCII, where this agrees with JavaScript's
UTF-16 `length`). -/

/-- A required string field. -/
def zodString : Json → Option String
  | Json.str s => some s
  | _ => none

/-- A required number field (zod rejects `NaN`; `Json` numbers are exact
rationals, so no extra check is needed). -/
def zodNumber : Json → Option ℚ
  | Json.num q => some q
  | _ => none

/-- A `z.number().nonnegative()` field. -/
def zodNonnegNumber (j : Json) : Option ℚ :=
  match zodNumber j with
  | some q => if 0 ≤ q then some q else none
  | none => none

/-- An `.optional()` field: an absent key passes as `none`; a present value
must satisfy the inner validator. -/
def optField {α : Type} (kvs : List (String × Json)) (k : String)
    (f : Json → Option α) : Option (Option α) :=
  match objGet kvs k with
  | none => some none
  | some v => (f v).map some

/-- `priceSchema.safeParse` (with the `currency` default `'BRL'`). -/
def priceSchemaParse : Json → Option Price
  | Json.obj kvs => do
    let value ← optField kvs "value" zodNonnegNumber
    let pmin ← optField kvs "min" zodNonnegNumber
    let pmax ← optField kvs "max" zodNonnegNumber
    let currency ←
      match objGet kvs "currency" with
      | none => some "BRL"
      | some (Json.str s) => if s = "BRL" ∨ s = "USD" then some s else none
      | some _ => none
    let formatted ← optField kvs "formatted" zodString
    some { value := value, min := pmin, max := pmax, currency := currency,
           formatted := formatted }
  | _ => none

/-- `sourceSchema.safeParse`. -/
def sourceSchemaParse : Json → Option Source
  | Json.obj kvs => do
    let name ← match objGet kvs "name" with
      | some v => (zodString v).filter (fun s => 1 ≤ s.length)
      | none => none
    let url ← optField kvs "url" (fun v => (zodString v).filter isValidUrlZod)
    some { name := name, url := url }
  | _ => none

/-- `productSchema.safeParse`. -/
def productSchemaParse : Json → Option Product
  | Json.obj kvs => do
    let name ← match objGet kvs "name" with
      | some v => (zodString v).filter (fun s => 3 ≤ s.length ∧ s.length ≤ 200)
      | none => none
    let description ← optField kvs "description"
      (fun v => (zodString v).filter (fun s => s.length ≤ 500))
    let price ← optField kvs "price" priceSchemaParse
    let source ← optField kvs "source" sourceSchemaParse
    let specs ← optField kvs "specs" (fun v =>
      match v with
      | Json.arr xs => xs.mapM zodString
      | _ => none)
    let relevance_score ← optField kvs "relevance_score"
      (fun v => (zodNumber v).filter (fun q => 0 ≤ q ∧ q ≤ 1))
    let image_url ← optField kvs "image_url" (fun v => (zodString v).filter isValidUrlZod)
    let brand ← optField kvs "brand" zodString
    let category ← optField kvs "category" zodString
    let rating ← optField kvs "rating"
      (fun v => (zodNumber v).filter (fun q => 0 ≤ q ∧ q ≤ 5))
    let availability ← optField kvs "availability" zodString
    some { name := name, description := description, price := price,
           source := source, specs := specs, relevance_score := relevance_score,
           image_url := image_url, brand := brand, category := category,
           rating := rating, availability := availability }
  | _ => none

/-- `rawResponseSchema.safeParse`: the top-level document shape
(`products` a sequence of arbitrary records, `search_summary` an optional
string). -/
def rawResponseSchemaParse : Json → Option (List Json × Option String)
  | Json.obj kvs => do
    let products ← match objGet kvs "products" with
      | some (Json.arr xs) => some xs
      | _ => none
    let summary ← optField kvs "search_summary" zodString
    some (products, summary)
  | _ => none

/-! ## Per-record validation (`parseProducts` lines 198-216) -/

/-- The diagnostic for the `i`-indexed (0-based) invalid record:
`Product $\x7bi + 1\x7d invalid: …` carries the record's 1-based position (the
zod-rendered reason, a library detail, is elided). -/
def productError (i : Nat) : String := "Product " ++ toString (i + 1) ++ " invalid"

/-- The per-record validation loop, from 0-based position `i`. -/
def validateRecordsAux : Nat → List Json → List Product × List String
  | _, [] => ([], [])
  | i, r :: rest =>
    let (vs, es) := validateRecordsAux (i + 1) rest
    match productSchemaParse r with
    | some p => (p :: vs, es)
    | none => (vs, productError i :: es)

/-- The per-record validation of `parseProducts`: valid records in order,
plus one positioned diagnostic per invalid record.  It is a total function:
validation never raises. -/
def validateRecords (rs : List Json) : List Product × List String :=
  validateRecordsAux 0 rs

/-- `ParseResult` (`ParseOutcome` of the specification). -/
structure ParseResult where
  products : List Product
  searchSummary : Option String
  parseErrors : List String
deriving DecidableEq, Repr

/-- `parseProducts` (source lines 132-217). -/
def parseProducts (content : String) : ParseResult :=
  if (extractJson content).isNone then
    { products := [], searchSummary := none,
      parseErrors := ["Could not extract JSON from response"] }
  else
    match recoverDocument content with
    | none => { products := [], searchSummary := none, parseErrors := ["Invalid JSON"] }
    | some rawData =>
      match rawResponseSchemaParse rawData with
      | none =>
        { products := [], searchSummary := none,
          parseErrors := ["Response does not match expected structure"] }
      | some (rs, summary) =>
        let (vs, es) := validateRecords rs
        { products := vs, searchSummary := summary, parseErrors := es }

/-! ## The URL classifier (`src/utils/url-validator.ts`) -/

/-- `SEARCH_URL_PATTERNS` (source lines 125-147): each case-insensitive regex
is a literal-substring test; the classifier lowercases its inputs before
testing, so lowercase literals model the `/i` flag. -/
def SEARCH_URL_PATTERNS : List (List Char → Bool) :=
  [ containsSub ("/busca/".data),
    containsSub ("/search".data),
    containsSub ("/s?".data),
    containsSub ("/s/".data),
    fun l => containsSub ("?q=".data) l || containsSub ("&q=".data) l,
    fun l => containsSub ("?query=".data) l || containsSub ("&query=".data) l,
    fun l => containsSub ("?search=".data) l || containsSub ("&search=".data) l,
    fun l => containsSub ("?s=".data) l || containsSub ("&s=".data) l,
    fun l => containsSub ("?k=".data) l || containsSub ("&k=".data) l,
    containsSub ("/categoria/".data),
    containsSub ("/category/".data),
    containsSub ("/browse/".data),
    containsSub ("/results/".data),
    containsSub ("/produtos?".data),
    containsSub ("/products?".data),
    containsSub ("/lista/".data),
    containsSub ("/list/".data),
    containsSub ("/catalogo/".data),
    containsSub ("/catalog/".data),
    containsSub ("/departamento/".data),
    containsSub ("/department/".data) ]

/-- Alphanumeric (the class `[A-Z0-9]` under the `/i` flag, applied to
lowercased text). -/
def isAlnum (c : Char) : Bool := c.isAlpha || c.isDigit

/-- The regex `\/MLB-?\d+` (`/i`, on lowercased text): `/mlb`, an optional
hyphen, then at least one digit. -/
def mlbHit : List Char → Bool
  | [] => false
  | c :: rest =>
    (("/mlb".data).isPrefixOf (c :: rest) &&
      (match (c :: rest).drop 4 with
       | '-' :: d :: _ => d.isDigit
       | d :: _ => d.isDigit
       | [] => false)) ||
    mlbHit rest

/-- `PRODUCT_URL_PATTERNS` (source lines 150-161), as tests on lowercased
text (modelling the `/i` flags). -/
def PRODUCT_URL_PATTERNS : List (List Char → Bool) :=
  [ containsTokenThen ("/dp/".data) isAlnum,
    containsTokenThen ("/produto/".data) Char.isDigit,
    containsTokenThen ("/p/".data) Char.isDigit,
    containsTokenThen ("/product/".data) Char.isDigit,
    mlbHit,
    containsTokenThen ("/item/".data) Char.isDigit,
    containsTokenThen ("/sku/".data) Char.isDigit,
    containsTokenThen ("/id/".data) Char.isDigit,
    containsTokenThen ("/pd/".data) Char.isDigit,
    fun l => hasSixDigitRun l 0 ]

/-- `isSearchUrl` (source lines 166-186): an empty or unparseable URL is a
search page (fail safe); otherwise any search pattern on the lowercased
href, pathname or query string. -/
def isSearchUrl (url : String) : Bool :=
  if url = "" then true
  else
    match parseURL url with
    | none => true
    | some u =>
      let fullUrl := (strLower (hrefOf u)).data
      let pathname := (strLower u.pathname).data
      let search := (strLower u.search).data
      SEARCH_URL_PATTERNS.any (fun pat => pat fullUrl || pat pathname || pat search)

/-- `isProductUrl` (source lines 191-222): not a search URL, and either a
product pattern on href or pathname, or a pathname with at least two
non-empty segments. -/
def isProductUrl (url : String) : Bool :=
  if url = "" then false
  else
    match parseURL url with
    | none => false
    | some u =>
      if isSearchUrl url then false
      else
        let fullUrl := (hrefOf u).data.map charLower
        let pathname := u.pathname.data.map charLower
        if PRODUCT_URL_PATTERNS.any (fun pat => pat fullUrl || pat pathname) then true
        else
          decide (((splitOnChar '/' u.pathname.data).filter
            (fun seg => 0 < seg.length)).length ≥ 2)

/-- The result record of `filterProductsByUrl`. -/
structure UrlFilterResult where
  validProducts : List Product
  invalidCount : Nat
  invalidUrls : List String
deriving DecidableEq, Repr

/-- The loop of `filterProductsByUrl` (source lines 236-252): a product with
a falsy source URL is kept; a product with a search URL is dropped and its
URL reported; anything else is kept. -/
def urlFilterAux : List Product → List Product × List String
  | [] => ([], [])
  | product :: rest =>
    let (vs, inv) := urlFilterAux rest
    match product.source with
    | some src =>
      match src.url with
      | some u =>
        if u = "" then (product :: vs, inv)
        else if isSearchUrl u then (vs, u :: inv)
        else (product :: vs, inv)
      | none => (product :: vs, inv)
    | none => (product :: vs, inv)

/-- `filterProductsByUrl` (source lines 228-266). -/
def filterProductsByUrl (products : List Product) : UrlFilterResult :=
  let (vs, inv) := urlFilterAux products
  { validProducts := vs, invalidCount := inv.length, invalidUrls := inv }

/-! ## The normalization pipeline (`src/services/filter.service.ts`) -/

/-- `calculateRelevanceScore` (source lines 6-16), with JavaScript truthiness
made explicit: base `0.5`; `+0.1` for a truthy name of length `> 5`; `+0.1`
for a truthy description of length `> 20`; `+0.15` for a truthy (hence
non-zero) `price.value` or `price.min`; `+0.1` for a truthy source URL;
`+0.05` for a present non-empty `specs` array; capped at `1`. -/
def calculateRelevanceScore (product : Product) : ℚ :=
  let score : ℚ := 1/2
  let score := if product.name ≠ "" ∧ product.name.length > 5 then score + 1/10 else score
  let score :=
    if truthyStrOpt product.description &&
       decide ((product.description.getD "").length > 20)
    then score + 1/10 else score
  let score :=
    if truthyNumOpt (product.price.bind Price.value) ||
       truthyNumOpt (product.price.bind Price.min)
    then score + 15/100 else score
  let score := if truthyStrOpt (product.source.bind Source.url) then score + 1/10 else score
  let score :=
    (match product.specs with
     | some l => if 0 < l.length then score + 5/100 else score
     | none => score)
  min score 1

/-- `nonProductPatterns` (source lines 22-31), case-insensitive literal
phrases. -/
def nonProductPatterns : List (List Char) :=
  [ "como fazer".data, "tutorial".data, "guia de".data, "review".data,
    "comparativo".data, "dicas de".data, "o que é".data, "história de".data ]

/-- `filterNonProducts` (source lines 21-37): drop a record whose lowercased
`name description` text contains any non-product phrase. -/
def filterNonProducts (products : List Product) : List Product :=
  products.filter (fun product =>
    let text := (strLower (product.name ++ " " ++ product.description.getD "")).data
    ! nonProductPatterns.any (fun pat => containsSub pat text))

/-- JavaScript `Map.prototype.set`: update in place if the key exists
(keeping its insertion position), otherwise append. -/
def jsMapSet {α : Type} (m : List (String × α)) (k : String) (v : α) :
    List (String × α) :=
  if m.any (fun e => e.1 = k) then m.map (fun e => if e.1 = k then (k, v) else e)
  else m ++ [(k, v)]

/-- JavaScript `Map.prototype.get`. -/
def jsMapGet {α : Type} (m : List (String × α)) (k : String) : Option α :=
  (m.find? (fun e => e.1 = k)).map (fun e => e.2)

/-- Runs of whitespace collapsed to one space: `replace(/\s+/g, ' ')`. -/
def collapseWsAux : Bool → List Char → List Char
  | _, [] => []
  | prevWs, c :: rest =>
    if isWsChar c then
      if prevWs then collapseWsAux true rest else ' ' :: collapseWsAux true rest
    else c :: collapseWsAux false rest

/-- The deduplication key of source line 46:
`name.toLowerCase().replace(/\s+/g, ' ').trim()`. -/
def normalizedName (product : Product) : String :=
  String.mk (trimChars (collapseWsAux false ((strLower product.name).data)))

/-- One iteration of the `deduplicateProducts` loop (source lines 45-57). -/
def dedupStep (m : List (String × Product)) (product : Product) :
    List (String × Product) :=
  let k := normalizedName product
  match jsMapGet m k with
  | none => jsMapSet m k product
  | some existing =>
    if calculateRelevanceScore existing < calculateRelevanceScore product
    then jsMapSet m k product else m

/-- `deduplicateProducts` (source lines 42-60): fold the products through a
JavaScript `Map` keyed by normalized name and return its values in key
insertion order. -/
def deduplicateProducts (products : List Product) : List Product :=
  (products.foldl dedupStep []).map (fun e => e.2)

/-- Decimal digits of `n`, least significant first (fuelled). -/
def natDigitsRev (fuel n : Nat) : List Char :=
  match fuel with
  | 0 => []
  | fuel + 1 =>
    if n < 10 then [Char.ofNat (48 + n)]
    else Char.ofNat (48 + n % 10) :: natDigitsRev fuel (n / 10)

/-- Insert a thousands separator after every third digit (input least
significant first). -/
def groupAux : List Char → Nat → List Char
  | [], _ => []
  | c :: rest, k =>
    if k = 3 then '.' :: c :: groupAux rest 1 else c :: groupAux rest (k + 1)

/-- Model of `Intl.NumberFormat('pt-BR', …currency…).format`: currency
symbol, space, thousands-dotted integer part, comma, two decimals.  The exact
rendering is host-library behaviour; no claim of this development depends on
it. -/
def intlFormatPtBR (v : ℚ) (currency : String) : String :=
  let sym := if currency = "USD" then "US$" else "R$"
  let cents := (⌊v * 100 + 1/2⌋ : ℤ).toNat
  let ip := cents / 100
  let fr := cents % 100
  sym ++ " " ++ String.mk ((groupAux (natDigitsRev (ip + 1) ip) 1).reverse)
      ++ "," ++ String.mk [Char.ofNat (48 + fr / 10), Char.ofNat (48 + fr % 10)]

/-- JavaScript `a || b` on optional numbers (line 71's
`price.value || price.min`). -/
def jsOrNum (a b : Option ℚ) : Option ℚ := if truthyNumOpt a then a else b

/-- `formatPrice` (source lines 76-83): `undefined` for a falsy value,
otherwise the locale-formatted amount. -/
def formatPrice (value : Option ℚ) (currency : String) : Option String :=
  if truthyNumOpt value then some (intlFormatPtBR (value.getD 0) currency) else none

/-- One product of `enrichProducts` (source lines 65-74): overwrite
`relevance_score` with the computed score and attach the formatted price. -/
def enrichOne (product : Product) : Product :=
  { product with
    relevance_score := some (calculateRelevanceScore product),
    price :=
      match product.price with
      | some pr => some { pr with formatted := formatPrice (jsOrNum pr.value pr.min) pr.currency }
      | none => none }

/-- `enrichProducts` (source lines 65-74). -/
def enrichProducts (products : List Product) : List Product :=
  products.map enrichOne

/-- The sort key of source line 94: `relevance_score || 0`. -/
def scoreKey (p : Product) : ℚ :=
  match p.relevance_score with
  | some s => s
  | none => 0

/-- Stable descending insertion for the comparator
`(a, b) => (b.relevance_score || 0) - (a.relevance_score || 0)`. -/
def insertDesc (p : Product) : List Product → List Product
  | [] => [p]
  | q :: rest => if scoreKey q < scoreKey p then p :: q :: rest else q :: insertDesc p rest

/-- The sort of source line 94 (`Array.prototype.sort` is stable): descending
by score, preserving the prior order of equal scores. -/
def sortByScoreDesc (l : List Product) : List Product := l.foldr insertDesc []

/-- `processProducts` (source lines 88-95): non-product filter, dedup,
enrichment, sort. -/
def processProducts (rawProducts : List Product) : List Product :=
  sortByScoreDesc (enrichProducts (deduplicateProducts (filterNonProducts rawProducts)))

/-! ## The image resolver (`src/services/image-resolver.service.ts`)

The axios page fetch is the external page-fetch collaborator and is passed as
an oracle `fetch : String → Option String` (`none` models a thrown
network/timeout error).  The process-wide `imageCache` `Map` is explicit
state.  The HTML-scraping helpers below model the source's regexes closely
enough to be executable; none of the verified claims depends on their exact
behaviour, because the resolver theorems are proved for every `fetch`
oracle. -/

/-- JavaScript truthiness of a parsed JSON value. -/
def jsTruthyJson : Json → Bool
  | Json.null => false
  | Json.bool b => b
  | Json.num q => decide (q ≠ 0)
  | Json.str s => decide (s ≠ "")
  | Json.arr _ => true
  | Json.obj _ => true

/-- Is `name=["']value["']` present in a tag body (attribute names and values
compared case-insensitively, as the `/i` regexes do)? -/
def scanAttrVal (name value : List Char) : List Char → Bool
  | [] => false
  | c :: rest =>
    ((name ++ ['=']).isPrefixOf ((c :: rest).map charLower) &&
      (match (c :: rest).drop (name.length + 1) with
       | q :: rest2 =>
         (q = '"' || q = '\'') &&
         value.isPrefixOf (rest2.map charLower) &&
         (match rest2.drop value.length with
          | q2 :: _ => q2 = '"' || q2 = '\''
          | [] => false)
       | [] => false)) ||
    scanAttrVal name value rest

/-- Capture of `name=["']([^"']+)["']` in a tag body (name matched
case-insensitively, the capture kept in original case). -/
def scanAttrCapture (name : List Char) : List Char → Option (List Char)
  | [] => none
  | c :: rest =>
    if (name ++ ['=']).isPrefixOf ((c :: rest).map charLower) then
      match (c :: rest).drop (name.length + 1) with
      | q :: rest2 =>
        if q = '"' ∨ q = '\'' then
          let cap := rest2.takeWhile (fun d => d ≠ '"' && d ≠ '\'')
          if cap.isEmpty then scanAttrCapture name rest
          else
            match rest2.drop cap.length with
            | q2 :: _ =>
              if q2 = '"' ∨ q2 = '\'' then some cap else scanAttrCapture name rest
            | [] => scanAttrCapture name rest
        else scanAttrCapture name rest
      | [] => scanAttrCapture name rest
    else scanAttrCapture name rest

/-- `extractMetaContent` (image-resolver lines 297-314): the first `<meta>`
tag carrying `attr=["']value["']`, in either attribute order, yields its
`content` capture. -/
def metaTagScan (attr value : List Char) : List Char → Option (List Char)
  | [] => none
  | c :: rest =>
    if ("<meta".data).isPrefixOf ((c :: rest).map charLower) then
      let body := ((c :: rest).drop 5).takeWhile (fun d => d ≠ '>')
      if scanAttrVal attr value body then
        match scanAttrCapture ("content".data) body with
        | some cap => some cap
        | none => metaTagScan attr value rest
      else metaTagScan attr value rest
    else metaTagScan attr value rest

/-- `extractImageFromJsonLdObject` on an object node (image-resolver lines
345-361): a string `image`, the first element of an array `image` (string,
or object with a string `url`), else the `offers.image` patterns. -/
def jsonLdOffers (kvs : List (String × Json)) : Option String :=
  match objGet kvs "offers" with
  | some (Json.obj okvs) =>
    match objGet okvs "image" with
    | some img =>
      if jsTruthyJson img then
        match img with
        | Json.str s => some s
        | Json.arr (Json.str s :: _) => some s
        | _ => none
      else none
    | none => none
  | _ => none

/-- The object-node checks of `extractImageFromJsonLdObject`. -/
def jsonLdObjImage (kvs : List (String × Json)) : Option String :=
  match objGet kvs "image" with
  | some (Json.str s) => some s
  | some (Json.arr (Json.str s :: _)) => some s
  | some (Json.arr (Json.obj okvs :: _)) =>
    (match objGet okvs "url" with
     | some (Json.str u) => some u
     | _ => jsonLdOffers kvs)
  | _ => jsonLdOffers kvs

/-- The array recursion of `extractImageFromJsonLdObject` (depth-first, first
success wins), as a fuelled worklist. -/
def jsonLdImageSearch : Nat → List Json → Option String
  | 0, _ => none
  | _ + 1, [] => none
  | fuel + 1, node :: stack =>
    match node with
    | Json.arr xs => jsonLdImageSearch fuel (xs ++ stack)
    | Json.obj kvs =>
      (match jsonLdObjImage kvs with
       | some s => some s
       | none => jsonLdImageSearch fuel stack)
    | _ => jsonLdImageSearch fuel stack

/-- `extractFromJsonLd` (image-resolver lines 316-332): scan
`application/ld+json` script blocks in document order; the first block whose
parsed content yields an image wins; unparseable blocks are skipped. -/
def jsonLdScan : Nat → List Char → Option String
  | 0, _ => none
  | _ + 1, [] => none
  | fuel + 1, c :: rest =>
    if ("<script".data).isPrefixOf ((c :: rest).map charLower) then
      let afterOpen := (c :: rest).drop 7
      let body := afterOpen.takeWhile (fun d => d ≠ '>')
      let contentStart := (afterOpen.drop body.length).drop 1
      if scanAttrVal ("type".data) ("application/ld+json".data) body then
        match findSubIdx ("</script".data) (contentStart.map charLower) with
        | some j =>
          (match jsonParse (String.mk (trimChars (contentStart.take j))) with
           | some data =>
             (match jsonLdImageSearch (2 * j + 4) [data] with
              | some img => some img
              | none => jsonLdScan fuel (contentStart.drop j))
           | none => jsonLdScan fuel (contentStart.drop j))
        | none => none
      else jsonLdScan fuel rest
    else jsonLdScan fuel rest

/-- A simplified RFC 3986 merge for `new URL(src, base)`: an absolute path
replaces the base path, a relative one replaces its last segment. -/
def resolveRelative (base src : String) : Option String :=
  match parseURL base with
  | none => none
  | some b =>
    if src.data.head? = some '/' then some (b.scheme ++ "://" ++ b.host ++ src)
    else
      let dir := (b.pathname.data.reverse.dropWhile (fun c => c ≠ '/')).reverse
      some (b.scheme ++ "://" ++ b.host ++ String.mk dir ++ src)

/-- `toAbsoluteUrl` (image-resolver lines 366-377): pass an absolute URL
through (normalized), resolve a relative one against the page URL, and fall
back to the raw candidate. -/
def toAbsoluteUrl (src base : String) : String :=
  match parseURL src with
  | some u => hrefOf u
  | none =>
    match resolveRelative base src with
    | some abs => abs
    | none => src

/-- `extractImageFromHtml` (image-resolver lines 276-295): Open Graph meta,
then Twitter-card meta, then JSON-LD, then nothing; the candidate is made
absolute against the page URL. -/
def extractImageFromHtml (html baseUrl : String) : Option String :=
  let candidate : Option String :=
    match metaTagScan ("property".data) ("og:image".data) html.data with
    | some cap => some (String.mk cap)
    | none =>
      match metaTagScan ("name".data) ("twitter:image".data) html.data with
      | some cap => some (String.mk cap)
      | none => jsonLdScan (html.length + 1) html.data
  candidate.map (fun c => toAbsoluteUrl c baseUrl)

/-- The truthy source URL of a product (`product.source?.url` under a
truthiness test), used by the resolver. -/
def sourceUrlTruthy (product : Product) : Option String :=
  match product.source with
  | some src =>
    match src.url with
    | some u => if u = "" then none else some u
    | none => none
  | none => none

/-- The `finalImage` computation of one `resolveProductImages` iteration
(lines 229-248): the product's own image if truthy, else the cached or
freshly fetched resolution by source URL (a fetch failure leaves the value
unchanged and stores a negative cache entry). -/
def resolveLookup (fetch : String → Option String)
    (cache : List (String × Option String)) (product : Product) :
    Option String × List (String × Option String) :=
  let f0 := product.image_url
  if truthyStrOpt f0 then (f0, cache)
  else
    match sourceUrlTruthy product with
    | none => (f0, cache)
    | some sourceUrl =>
      match jsMapGet cache sourceUrl with
      | some cached => (cached, cache)
      | none =>
        match fetch sourceUrl with
        | some html =>
          let resolved := extractImageFromHtml html sourceUrl
          (resolved, jsMapSet cache sourceUrl resolved)
        | none => (f0, jsMapSet cache sourceUrl none)

/-- One iteration of the `resolveProductImages` loop (lines 229-256) on one
product: returns the (possibly image-filled) product, the updated cache, and
the truthy final image if one was assigned. -/
def resolveOne (fetch : String → Option String)
    (cache : List (String × Option String)) (product : Product) :
    Product × List (String × Option String) × Option String :=
  let r := resolveLookup fetch cache product
  if truthyStrOpt r.1 then ({ product with image_url := r.1 }, r.2, r.1)
  else (product, r.2, none)

/-- The running state of the resolver: the process-wide cache and the
accumulated image list. -/
structure ResolveState where
  cache : List (String × Option String)
  images : List String
deriving DecidableEq, Repr

/-- The result of `resolveProductImages`. -/
structure ResolveResult where
  products : List Product
  images : List String
  cache : List (String × Option String)
deriving DecidableEq, Repr

/-- The state after one processed product: the updated cache, and the truthy
final image appended to the image list if not already present
(`if (!allImages.includes(finalImage)) allImages.push(finalImage)`). -/
def resolveNextState (fetch : String → Option String) (st : ResolveState)
    (product : Product) : ResolveState :=
  let r := resolveOne fetch st.cache product
  { cache := r.2.1,
    images :=
      match r.2.2 with
      | some img => if st.images.contains img then st.images else st.images ++ [img]
      | none => st.images }

/-- The indexed loop of `resolveProductImages`: at most `maxToResolve = 5`
leading products are processed (`if (i >= maxToResolve) break`), the rest are
returned untouched. -/
def resolveAux (fetch : String → Option String) :
    Nat → List Product → ResolveState → List Product × ResolveState
  | _, [], st => ([], st)
  | i, product :: rest, st =>
    if 5 ≤ i then (product :: rest, st)
    else
      let r2 := resolveAux fetch (i + 1) rest (resolveNextState fetch st product)
      ((resolveOne fetch st.cache product).1 :: r2.1, r2.2)

/-- `resolveProductImages` (image-resolver lines 209-260): copy any
provider-supplied images, resolve at most five leading products, and return
the updated products, the merged image list and the cache. -/
def resolveProductImages (fetch : String → Option String)
    (cache : List (String × Option String)) (products : List Product)
    (existingImages : Option (List String)) : ResolveResult :=
  let allImages := existingImages.getD []
  let (ps, st) := resolveAux fetch 0 products { cache := cache, images := allImages }
  { products := ps, images := st.images, cache := st.cache }

/-! ## The SerpApi provider path (`src/services/serpapi.service.ts` and
`searchWithSerpApi` of `src/services/search.service.ts`) -/

/-- The fields of a SerpApi shopping result that the adapter reads.  `link`
and `product_link` are optional because the adapter defends against their
absence (`item.link || item.product_link || ''`). -/
structure SerpApiProduct where
  title : String
  link : Option String := none
  product_link : Option String := none
  source : String
  price : String
  extracted_price : Option ℚ := none
  extracted_old_price : Option ℚ := none
  rating : Option ℚ := none
  thumbnail : String
  delivery : Option String := none
  extensions : Option (List String) := none
deriving DecidableEq, Repr

/-- JavaScript `a || b` for an optional string against a string default. -/
def jsOrStr (a : Option String) (b : String) : String :=
  match a with
  | some s => if s = "" then b else s
  | none => b

/-- JavaScript `a || b || 0` on optional numbers. -/
def jsOr2Num (a b : Option ℚ) : ℚ :=
  if truthyNumOpt a then a.getD 0 else if truthyNumOpt b then b.getD 0 else 0

/-- `Array.prototype.join('. ')`. -/
def joinDotSep : List String → String
  | [] => ""
  | [s] => s
  | s :: rest => s ++ ". " ++ joinDotSep rest

/-- `commonBrands` of `extractBrand` (serpapi lines 201-205). -/
def commonBrands : List String :=
  [ "Apple", "Samsung", "Xiaomi", "Motorola", "LG", "Sony", "Dell", "HP", "Lenovo",
    "Asus", "Acer", "Microsoft", "Google", "Nike", "Adidas", "JBL", "Bose",
    "Philips", "Panasonic", "Canon", "Nikon", "Logitech", "Razer", "Corsair" ]

/-- `extractBrand` (serpapi lines 200-216): the first known brand contained
in the lowercased title, else the title's first word, else `N/A`. -/
def extractBrand (title : String) : String :=
  match commonBrands.find? (fun brand =>
      containsSub ((strLower brand).data) ((strLower title).data)) with
  | some brand => brand
  | none =>
    match splitOnChar ' ' title.data with
    | w :: _ => if w.isEmpty then "N/A" else String.mk w
    | [] => "N/A"

/-- The SerpApi-to-`Product` adapter (serpapi lines 158-179) for the item at
0-based `index`: in particular `relevance_score` is assigned directly from
the item's position as `1 - index * 0.05`. -/
def serpApiToProduct (country : Option String) (index : Nat)
    (item : SerpApiProduct) : Product :=
  { name := item.title,
    description :=
      some (jsOrStr (item.extensions.map joinDotSep) (item.title ++ " - " ++ item.source)),
    brand := some (extractBrand item.title),
    category := some "Shopping",
    price := some
      { value := some (item.extracted_price.getD 0),
        min := some (item.extracted_price.getD 0),
        max := some (jsOr2Num item.extracted_old_price item.extracted_price),
        currency := if country = some "br" then "BRL" else "USD",
        formatted := some item.price },
    source := some
      { name := item.source, url := some (jsOrStr item.link (jsOrStr item.product_link "")) },
    image_url := some item.thumbnail,
    specs := some (item.extensions.getD []),
    rating :=
      (match item.rating with
       | some r => if r = 0 then none else some r
       | none => none),
    availability := some (jsOrStr item.delivery "Verificar no site"),
    relevance_score := some (1 - (index : ℚ) * (5/100)) }

/-- The indexed `rawResults.map` of `searchSerpApi`. -/
def serpMapAux (country : Option String) : Nat → List SerpApiProduct → List Product
  | _, [] => []
  | i, item :: rest => serpApiToProduct country i item :: serpMapAux country (i + 1) rest

/-- The product list produced by `searchSerpApi` (serpapi line 158). -/
def serpApiMapProducts (country : Option String) (items : List SerpApiProduct) :
    List Product :=
  serpMapAux country 0 items

/-- The final product list of the SerpApi provider path
(`searchWithSerpApi`, search-service lines 49-95): the adapter's products
truncated to the requested maximum.  Neither `processProducts` nor any other
normalization stage is applied on this path. -/
def searchWithSerpApiProducts (country : Option String)
    (items : List SerpApiProduct) (maxResults : Nat) : List Product :=
  (serpApiMapProducts country items).take maxResults

/-- The final product list of the Gemini provider path (`searchWithGemini`,
search-service lines 100-196), starting from the validated products of
`parseProducts`: normalization pipeline, URL filter, truncation to the
requested maximum, image resolution. -/
def searchWithGeminiProducts (fetch : String → Option String)
    (cache : List (String × Option String)) (parsedProducts : List Product)
    (llmImages : Option (List String)) (maxResults : Nat) : List Product :=
  if parsedProducts.isEmpty then []
  else
    let processed := processProducts parsedProducts
    let kept := (filterProductsByUrl processed).validProducts
    let limited := kept.take maxResults
    (resolveProductImages fetch cache limited llmImages).products

/-! ## Specification-side definitions

These definitions state properties in the specification's words, to be
compared with the definitions translated from the source. -/

/-- A product with its `image_url` erased: two products agree on `eraseImage`
exactly when all fields other than `image_url` agree. -/
def eraseImage (p : Product) : Product := { p with image_url := none }

/-- Keep the first occurrence of every element, preserving first-seen order
(the specification's "deduplicated, preserving first-seen order"). -/
def dedupFirst {α : Type} [DecidableEq α] : List α → List α
  | [] => []
  | x :: rest => x :: (dedupFirst rest).filter (fun y => y ≠ x)

/-- Claim C5's deduplication, in the specification's words: the distinct
normalized names in first-seen order, each mapped to the record of that name
with the highest computed relevance score, ties keeping the first-seen
(`List.argmax` returns the first element attaining the maximum). -/
def dedupSpecC5 (products : List Product) : List Product :=
  (dedupFirst (products.map normalizedName)).filterMap
    (fun k => (products.filter (fun q => normalizedName q = k)).argmax
      calculateRelevanceScore)

/-- The association list underlying `deduplicateProducts`: each distinct
normalized name (first-seen order) paired with the first record of that name
attaining the maximal relevance score. -/
def dedupAssoc (ps : List Product) : List (String × Product) :=
  (dedupFirst (ps.map normalizedName)).filterMap
    (fun k => ((ps.filter (fun q => normalizedName q = k)).argmax
      calculateRelevanceScore).map (fun q => (k, q)))

/-- Claim C2's scoring rule exactly as the specification words it: in
particular the `0.15` price bonus requires only that a numeric `value` or
`min` field be *present*. -/
def claimedScoreC2 (product : Product) : ℚ :=
  let score : ℚ := 1/2
  let score := if product.name.length > 5 then score + 1/10 else score
  let score :=
    (match product.description with
     | some d => if d.length > 20 then score + 1/10 else score
     | none => score)
  let score :=
    if (product.price.bind Price.value).isSome || (product.price.bind Price.min).isSome
    then score + 15/100 else score
  let score := if (product.source.bind Source.url).isSome then score + 1/10 else score
  let score :=
    (match product.specs with
     | some l => if 0 < l.length then score + 5/100 else score
     | none => score)
  min score 1

/-- Claim C2 as amended: the price bonus requires a present *non-zero*
(hence, on validated products, positive) `value` or `min`, matching
JavaScript truthiness; every other condition keeps the specification's
wording. -/
def claimedScoreC2Amended (product : Product) : ℚ :=
  let score : ℚ := 1/2
  let score := if product.name.length > 5 then score + 1/10 else score
  let score :=
    (match product.description with
     | some d => if d.length > 20 then score + 1/10 else score
     | none => score)
  let score :=
    if truthyNumOpt (product.price.bind Price.value) ||
       truthyNumOpt (product.price.bind Price.min)
    then score + 15/100 else score
  let score := if (product.source.bind Source.url).isSome then score + 1/10 else score
  let score :=
    (match product.specs with
     | some l => if 0 < l.length then score + 5/100 else score
     | none => score)
  min score 1

/-- The structural contract of a validated `Product` (the constraints
`productSchema` guarantees about its output). -/
def validProduct (p : Product) : Bool :=
  (3 ≤ p.name.length && p.name.length ≤ 200) &&
  (match p.description with
   | some d => d.length ≤ 500
   | none => true) &&
  (match p.price with
   | some pr =>
     (match pr.value with | some v => decide (0 ≤ v) | none => true) &&
     (match pr.min with | some v => decide (0 ≤ v) | none => true) &&
     (match pr.max with | some v => decide (0 ≤ v) | none => true) &&
     (pr.currency = "BRL" || pr.currency = "USD")
   | none => true) &&
  (match p.source with
   | some src =>
     (1 ≤ src.name.length) &&
     (match src.url with | some u => isValidUrlZod u | none => true)
   | none => true) &&
  (match p.relevance_score with
   | some s => decide (0 ≤ s) && decide (s ≤ 1)
   | none => true) &&
  (match p.image_url with | some u => isValidUrlZod u | none => true) &&
  (match p.rating with
   | some r => decide (0 ≤ r) && decide (r ≤ 5)
   | none => true)

/-- The resolved truthy images of the processed (first five) products, in
processing order, with the cache threaded exactly as the resolver threads it
(the image accumulator never influences resolution, so this sequence is a
function of the products, the cache and the fetch oracle alone). -/
def resolvedImageSeq (fetch : String → Option String) :
    Nat → List Product → List (String × Option String) → List String
  | _, [], _ => []
  | i, product :: rest, cache =>
    if 5 ≤ i then []
    else
      let r := resolveOne fetch cache product
      match r.2.2 with
      | some img => img :: resolvedImageSeq fetch (i + 1) rest r.2.1
      | none => resolvedImageSeq fetch (i + 1) rest r.2.1

/-- The image-list insertion of the resolver loop. -/
def insertIfAbsent (acc : List String) (img : String) : List String :=
  if acc.contains img then acc else acc ++ [img]

/-! ## Concrete inputs used by counterexamples and witnesses -/

/-- A raw record whose (validated) product has name `Fone X` and the present
but zero price `value`. -/
def c2json : Json :=
  Json.obj [("name", Json.str "Fone X"), ("price", Json.obj [("value", Json.num 0)])]

/-- The validated product of `c2json`. -/
def c2prod : Product := { name := "Fone X", price := some { value := some 0 } }

/-- A validated product with a positive price value. -/
def pNoUrl : Product := { name := "Fone X", price := some { value := some 100 } }

/-- A product whose source URL is a search page. -/
def pSearchUrl : Product :=
  { name := "Fone Y",
    source := some { name := "Loja", url := some "https://store.example/busca/fone" } }

/-- A product that already carries an image. -/
def pWithImage : Product := { name := "Fone Z", image_url := some "imgZ" }

/-- Claim C3's failing input: a well-formed document `\x7b"a":1\x7d` with a
trailing comma inserted before the closing brace, wrapped in a fenced code
block. -/
def c3content : String := "```json\n\x7b\"a\":1,\x7d\n```"

/-- The document of `c3content` without the fence and the trailing comma. -/
def c3doc : String := "\x7b\"a\":1\x7d"

/-- One SerpApi shopping result. -/
def c1Item : SerpApiProduct :=
  { title := "Produto", source := "Loja", price := "R$ 1", thumbnail := "t" }

/-- Twenty-two SerpApi shopping results (well within the schema's maximum of
fifty requested results). -/
def c1Items : List SerpApiProduct := List.replicate 22 c1Item

/-- A raw record failing the per-record contract (name shorter than 3). -/
def c4bad : Json := Json.obj [("name", Json.str "ab")]

/-- A raw record passing the per-record contract. -/
def c4ok : Json := Json.obj [("name", Json.str "Fone X")]

/-- A mixed record list: one invalid record at 1-based position 1, one valid
at position 2. -/
def c4list : List Json := [c4bad, c4ok]

/-- Two records with names differing only in case, the second more complete
(claim C5's example). -/
def c5a : Product := { name := "Samsung Galaxy A54" }

/-- See `c5a`. -/
def c5b : Product :=
  { name := "samsung galaxy a54", price := some { value := some 10 } }

/-- A list with one product kept (no URL) and one removed (search URL). -/
def c10list : List Product := [pNoUrl, pSearchUrl]

/-- A minimal valid product (no price, source or image). -/
def pPlain : Product := { name := "Fone X" }

/-- A document truncated mid-array: one opening brace and one opening
bracket are unclosed (claim C6's witness input). -/
def c6doc : String := "\x7b\"a\":[\"b\",\"c\""

/-! # Helper lemmas -/

theorem resolveOne_eraseImage (fetch : String → Option String)
    (cache : List (String × Option String)) (product : Product) :
    eraseImage (resolveOne fetch cache product).1 = eraseImage product := by
  unfold resolveOne
  generalize resolveLookup fetch cache product = r
  dsimp only
  split <;> rfl

theorem resolveAux_spec (fetch : String → Option String) :
    ∀ (ps : List Product) (i : Nat) (st : ResolveState),
      (resolveAux fetch i ps st).1.length = ps.length ∧
      ∀ j : Nat,
        (5 ≤ i + j → (resolveAux fetch i ps st).1.get? j = ps.get? j) ∧
        ((resolveAux fetch i ps st).1.get? j).map eraseImage
          = (ps.get? j).map eraseImage := by
  intro ps
  induction ps with
  | nil => intro i st; exact ⟨rfl, fun j => ⟨fun _ => rfl, rfl⟩⟩
  | cons p rest ih =>
    intro i st
    by_cases hi : 5 ≤ i
    · refine ⟨by simp [resolveAux, hi], ?_⟩
      intro j
      exact ⟨fun _ => by simp [resolveAux, hi], by simp [resolveAux, hi]⟩
    · obtain ⟨ihlen, ihget⟩ := ih (i + 1) (resolveNextState fetch st p)
      refine ⟨?_, ?_⟩
      · simpa [resolveAux, hi] using ihlen
      · intro j
        cases j with
        | zero =>
          refine ⟨fun habs => absurd habs (by omega), ?_⟩
          simp only [resolveAux, if_neg hi, List.get?_cons_zero, Option.map_some']
          rw [resolveOne_eraseImage]
        | succ j =>
          refine ⟨fun hij => ?_, ?_⟩
          · have h5 := (ihget j).1 (by omega)
            simpa [resolveAux, hi] using h5
          · have he := (ihget j).2
            simpa [resolveAux, hi] using he

theorem validateRecordsAux_spec : ∀ (rs : List Json) (i : Nat),
    validateRecordsAux i rs =
      (rs.filterMap productSchemaParse,
       ((List.enumFrom i rs).filter (fun e => (productSchemaParse e.2).isNone)).map
         (fun e => productError e.1)) := by
  intro rs
  induction rs with
  | nil => intro i; rfl
  | cons r rest ih =>
    intro i
    cases h : productSchemaParse r with
    | some p =>
      simp [validateRecordsAux, ih (i + 1), h, List.filterMap_cons, List.enumFrom,
        List.filter_cons]
    | none =>
      simp [validateRecordsAux, ih (i + 1), h, List.filterMap_cons, List.enumFrom,
        List.filter_cons]

theorem validate_lengths : ∀ (rs : List Json) (i : Nat),
    (validateRecordsAux i rs).1.length + (validateRecordsAux i rs).2.length
      = rs.length := by
  intro rs
  induction rs with
  | nil => intro i; rfl
  | cons r rest ih =>
    intro i
    have ihh := ih (i + 1)
    rcases hrec : validateRecordsAux (i + 1) rest with ⟨vs, es⟩
    rw [hrec] at ihh
    simp at ihh
    cases h : productSchemaParse r <;> simp [validateRecordsAux, hrec, h] <;> omega

theorem urlFilterAux_spec (l : List Product) :
    (urlFilterAux l).1.length + (urlFilterAux l).2.length = l.length ∧
    List.Sublist (urlFilterAux l).1 l ∧
    ∀ p ∈ l, p.source.bind Source.url = none → p ∈ (urlFilterAux l).1 := by
  induction l with
  | nil => exact ⟨rfl, List.Sublist.refl _, by intro p hp; cases hp⟩
  | cons p rest ih =>
    obtain ⟨ihlen, ihsub, ihmem⟩ := ih
    rcases hs : p.source with _ | src
    · refine ⟨?_, ?_, ?_⟩
      · simp [urlFilterAux, hs]
        omega
      · simpa [urlFilterAux, hs] using List.Sublist.cons₂ p ihsub
      · intro q hq hqurl
        simp only [urlFilterAux, hs]
        rcases List.mem_cons.mp hq with rfl | hq2
        · exact List.mem_cons_self _ _
        · exact List.mem_cons_of_mem _ (ihmem q hq2 hqurl)
    · rcases hu : src.url with _ | u
      · refine ⟨?_, ?_, ?_⟩
        · simp [urlFilterAux, hs, hu]
          omega
        · simpa [urlFilterAux, hs, hu] using List.Sublist.cons₂ p ihsub
        · intro q hq hqurl
          simp only [urlFilterAux, hs, hu]
          rcases List.mem_cons.mp hq with rfl | hq2
          · exact List.mem_cons_self _ _
          · exact List.mem_cons_of_mem _ (ihmem q hq2 hqurl)
      · by_cases hemp : u = ""
        · refine ⟨?_, ?_, ?_⟩
          · simp [urlFilterAux, hs, hu, hemp]
            omega
          · simpa [urlFilterAux, hs, hu, hemp] using List.Sublist.cons₂ p ihsub
          · intro q hq hqurl
            simp only [urlFilterAux, hs, hu, hemp, if_pos]
            rcases List.mem_cons.mp hq with rfl | hq2
            · exact List.mem_cons_self _ _
            · exact List.mem_cons_of_mem _ (ihmem q hq2 hqurl)
        · by_cases hsearch : isSearchUrl u
          · refine ⟨?_, ?_, ?_⟩
            · simp [urlFilterAux, hs, hu, hemp, hsearch]
              omega
            · simpa [urlFilterAux, hs, hu, hemp, hsearch] using
                List.Sublist.cons _ ihsub
            · intro q hq hqurl
              simp only [urlFilterAux, hs, hu, hemp, hsearch]
              rcases List.mem_cons.mp hq with rfl | hq2
              · rw [hs] at hqurl
                simp [hu] at hqurl
              · simpa using ihmem q hq2 hqurl
          · refine ⟨?_, ?_, ?_⟩
            · simp [urlFilterAux, hs, hu, hemp, hsearch]
              omega
            · simpa [urlFilterAux, hs, hu, hemp, hsearch] using
                List.Sublist.cons₂ p ihsub
            · intro q hq hqurl
              simp only [urlFilterAux, hs, hu, hemp, hsearch]
              rcases List.mem_cons.mp hq with rfl | hq2
              · simp
              · simp [ihmem q hq2 hqurl]

theorem serpMapAux_get (country : Option String) :
    ∀ (items : List SerpApiProduct) (j i : Nat),
      (serpMapAux country j items).get? i =
        (items.get? i).map (serpApiToProduct country (j + i)) := by
  intro items
  induction items with
  | nil => intro j i; cases i <;> rfl
  | cons item rest ih =>
    intro j i
    cases i with
    | zero =>
      show some (serpApiToProduct country j item)
          = some (serpApiToProduct country (j + 0) item)
      rw [Nat.add_zero]
    | succ i =>
      have h := ih (j + 1) i
      have e : j + 1 + i = j + (i + 1) := by omega
      rw [e] at h
      exact h

theorem mem_dedupFirst {α : Type} [DecidableEq α] (x : α) :
    ∀ l : List α, x ∈ dedupFirst l ↔ x ∈ l := by
  intro l
  induction l with
  | nil => simp [dedupFirst]
  | cons y t ih =>
    rw [dedupFirst]
    by_cases hxy : x = y
    · subst hxy
      simp
    · simp only [List.mem_cons, hxy, false_or, List.mem_filter]
      constructor
      · intro hmem
        exact ih.mp hmem.1
      · intro hmem
        exact ⟨ih.mpr hmem, by simp [hxy]⟩

theorem dedupFirst_snoc {α : Type} [DecidableEq α] (x : α) :
    ∀ l : List α, dedupFirst (l ++ [x])
      = if x ∈ l then dedupFirst l else dedupFirst l ++ [x] := by
  intro l
  induction l with
  | nil => simp [dedupFirst]
  | cons y t ih =>
    show dedupFirst (y :: (t ++ [x])) = _
    rw [dedupFirst, ih]
    by_cases hxt : x ∈ t
    · rw [if_pos hxt, if_pos (by simp [hxt])]
      rfl
    · rw [if_neg hxt]
      by_cases hxy : x = y
      · subst hxy
        rw [if_pos (by simp)]
        rw [dedupFirst, List.filter_append]
        simp
      · rw [if_neg (by simp [hxy, hxt])]
        rw [dedupFirst, List.filter_append]
        have hfx : List.filter (fun y2 => decide (y2 ≠ y)) [x] = [x] := by
          simp [hxy]
        simp [hfx, hxy]

theorem jsMapGet_filterMap (f : String → Option Product) :
    ∀ (ks : List String), (∀ k ∈ ks, (f k).isSome) →
      ∀ key, jsMapGet (ks.filterMap (fun k => (f k).map (fun q => (k, q)))) key
        = if key ∈ ks then f key else none := by
  intro ks
  induction ks with
  | nil => intro _ key; simp [jsMapGet]
  | cons k0 t ih =>
    intro hsome key
    obtain ⟨q0, hq0⟩ := Option.isSome_iff_exists.mp (hsome k0 (by simp))
    rw [List.filterMap_cons]
    rw [hq0]
    simp only [Option.map_some']
    by_cases hk : k0 = key
    · subst hk
      rw [jsMapGet]
      simp [hq0]
    · have ihr := ih (fun k hk2 => hsome k (by simp [hk2])) key
      rw [jsMapGet] at ihr ⊢
      rw [List.find?_cons]
      have hd : (decide ((k0, q0).1 = key)) = false := by simp [hk]
      rw [hd]
      rw [ihr]
      have hmem : (key ∈ k0 :: t) ↔ (key ∈ t) := by
        constructor
        · intro h
          rcases List.mem_cons.mp h with h1 | h2
          · exact absurd h1.symm hk
          · exact h2
        · exact fun h => List.mem_cons_of_mem _ h
      by_cases hkt : key ∈ t
      · rw [if_pos hkt, if_pos (hmem.mpr hkt)]
      · rw [if_neg hkt, if_neg (fun hc => hkt (hmem.mp hc))]

theorem any_filterMap_key (f : String → Option Product) :
    ∀ (ks : List String), (∀ k ∈ ks, (f k).isSome) →
      ∀ key, (ks.filterMap (fun k => (f k).map (fun q => (k, q)))).any
          (fun e => e.1 = key) = decide (key ∈ ks) := by
  intro ks
  induction ks with
  | nil => intro _ key; simp
  | cons k0 t ih =>
    intro hsome key
    obtain ⟨q0, hq0⟩ := Option.isSome_iff_exists.mp (hsome k0 (by simp))
    rw [List.filterMap_cons, hq0]
    simp only [Option.map_some']
    rw [List.any_cons, ih (fun k hk2 => hsome k (by simp [hk2])) key]
    by_cases hk : k0 = key
    · subst hk
      simp
    · simp only [List.mem_cons]
      have h1 : ((k0, q0).1 = key) = False := by
        simp [hk]
      have h2 : (key = k0) = False := by
        simp only [eq_iff_iff, iff_false]
        exact fun h => hk h.symm
      simp [h1, h2]

theorem jsMapSet_filterMap_mem (f : String → Option Product) (ks : List String)
    (hsome : ∀ k ∈ ks, (f k).isSome) (key : String) (v : Product)
    (hmem : key ∈ ks) :
    jsMapSet (ks.filterMap (fun k => (f k).map (fun q => (k, q)))) key v
      = ks.filterMap (fun k =>
          (if k = key then some v else f k).map (fun q => (k, q))) := by
  rw [jsMapSet, any_filterMap_key f ks hsome key]
  rw [if_pos (by simp [hmem])]
  rw [List.map_filterMap]
  apply List.filterMap_congr
  intro k hk
  obtain ⟨q, hq⟩ := Option.isSome_iff_exists.mp (hsome k hk)
  by_cases hkey : k = key
  · subst hkey
    rw [hq]
    simp
  · rw [hq]
    simp [hkey]

theorem jsMapSet_filterMap_not_mem (f : String → Option Product) (ks : List String)
    (hsome : ∀ k ∈ ks, (f k).isSome) (key : String) (v : Product)
    (hmem : key ∉ ks) :
    jsMapSet (ks.filterMap (fun k => (f k).map (fun q => (k, q)))) key v
      = ks.filterMap (fun k => (f k).map (fun q => (k, q))) ++ [(key, v)] := by
  rw [jsMapSet, any_filterMap_key f ks hsome key]
  rw [if_neg (by simp [hmem])]

theorem filter_group_snoc (ps : List Product) (p : Product) (k : String) :
    (ps ++ [p]).filter (fun q => normalizedName q = k)
      = ps.filter (fun q => normalizedName q = k) ++
        (if normalizedName p = k then [p] else []) := by
  rw [List.filter_append]
  congr 1
  by_cases h : normalizedName p = k <;> simp [h]

theorem group_argmax_isSome (ps : List Product) :
    ∀ k ∈ dedupFirst (ps.map normalizedName),
      ((ps.filter (fun q => normalizedName q = k)).argmax
        calculateRelevanceScore).isSome := by
  intro k hk
  have hk2 : k ∈ ps.map normalizedName := (mem_dedupFirst k _).mp hk
  obtain ⟨q, hq, hqn⟩ := List.mem_map.mp hk2
  have hmem : q ∈ ps.filter (fun q2 => normalizedName q2 = k) := by
    rw [List.mem_filter]
    exact ⟨hq, by simp [hqn]⟩
  cases h : (ps.filter (fun q2 => normalizedName q2 = k)).argmax
      calculateRelevanceScore with
  | some _ => rfl
  | none =>
    rw [List.argmax_eq_none] at h
    rw [h] at hmem
    cases hmem

theorem dedupStep_assoc (ps : List Product) (p : Product) :
    dedupStep (dedupAssoc ps) p = dedupAssoc (ps ++ [p]) := by
  have hsome := group_argmax_isSome ps
  have hmapsnoc : (ps ++ [p]).map normalizedName
      = ps.map normalizedName ++ [normalizedName p] := by simp
  by_cases hmem : normalizedName p ∈ ps.map normalizedName
  · have hkd : normalizedName p ∈ dedupFirst (ps.map normalizedName) :=
      (mem_dedupFirst _ _).mpr hmem
    obtain ⟨best, hbest⟩ := Option.isSome_iff_exists.mp (hsome _ hkd)
    have hget : jsMapGet (dedupAssoc ps) (normalizedName p) = some best := by
      rw [dedupAssoc, jsMapGet_filterMap _ _ hsome, if_pos hkd, hbest]
    have hgroup : (ps ++ [p]).filter (fun q => normalizedName q = normalizedName p)
        = ps.filter (fun q => normalizedName q = normalizedName p) ++ [p] := by
      rw [filter_group_snoc, if_pos rfl]
    by_cases hlt : calculateRelevanceScore best < calculateRelevanceScore p
    · have hstep : dedupStep (dedupAssoc ps) p
          = jsMapSet (dedupAssoc ps) (normalizedName p) p := by
        simp only [dedupStep, hget, if_pos hlt]
      rw [hstep]
      rw [dedupAssoc, jsMapSet_filterMap_mem _ _ hsome _ _ hkd]
      show _ = dedupAssoc (ps ++ [p])
      rw [dedupAssoc, hmapsnoc, dedupFirst_snoc, if_pos hmem]
      apply List.filterMap_congr
      intro k2 hk2
      by_cases hk2e : k2 = normalizedName p
      · subst hk2e
        rw [if_pos rfl, hgroup, List.argmax_concat, hbest]
        simp only
        rw [if_pos hlt]
      · rw [if_neg hk2e, filter_group_snoc, if_neg (fun hc => hk2e hc.symm),
          List.append_nil]
    · have hstep : dedupStep (dedupAssoc ps) p = dedupAssoc ps := by
        simp only [dedupStep, hget, if_neg hlt]
      rw [hstep]
      rw [dedupAssoc, dedupAssoc, hmapsnoc, dedupFirst_snoc, if_pos hmem]
      apply List.filterMap_congr
      intro k2 hk2
      by_cases hk2e : k2 = normalizedName p
      · subst hk2e
        rw [hgroup, List.argmax_concat, hbest]
        simp only
        rw [if_neg hlt]
      · rw [filter_group_snoc, if_neg (fun hc => hk2e hc.symm), List.append_nil]
  · have hkd : normalizedName p ∉ dedupFirst (ps.map normalizedName) :=
      fun hc => hmem ((mem_dedupFirst _ _).mp hc)
    have hget : jsMapGet (dedupAssoc ps) (normalizedName p) = none := by
      rw [dedupAssoc, jsMapGet_filterMap _ _ hsome, if_neg hkd]
    have hstep : dedupStep (dedupAssoc ps) p
        = jsMapSet (dedupAssoc ps) (normalizedName p) p := by
      simp only [dedupStep, hget]
    rw [hstep]
    rw [dedupAssoc, jsMapSet_filterMap_not_mem _ _ hsome _ _ hkd]
    rw [dedupAssoc, hmapsnoc, dedupFirst_snoc, if_neg hmem, List.filterMap_append]
    congr 1
    · apply List.filterMap_congr
      intro k2 hk2
      have hne : k2 ≠ normalizedName p := by
        intro he
        exact hmem (he ▸ (mem_dedupFirst k2 _).mp hk2)
      rw [filter_group_snoc, if_neg (fun hc => hne hc.symm), List.append_nil]
    · have hnil : ps.filter (fun q => normalizedName q = normalizedName p) = [] := by
        rw [List.filter_eq_nil]
        intro q hq
        simp only [decide_eq_true_eq]
        intro hc
        exact hmem (List.mem_map.mpr ⟨q, hq, hc⟩)
      simp only [List.filterMap_cons, List.filterMap_nil]
      rw [filter_group_snoc, if_pos rfl, hnil]
      simp

theorem foldl_dedupStep (ps : List Product) :
    ps.foldl dedupStep [] = dedupAssoc ps := by
  induction ps using List.reverseRecOn with
  | nil => rfl
  | append_singleton ps p ih =>
    rw [List.foldl_append, List.foldl_cons, List.foldl_nil, ih, dedupStep_assoc]

theorem countChar_cons (c d : Char) (t : List Char) :
    countChar c (d :: t) = (if d = c then 1 else 0) + countChar c t := by
  rw [countChar, countChar, List.filter_cons]
  by_cases h : d = c <;> simp [h, Nat.add_comm]

theorem countChar_append (c : Char) (l1 l2 : List Char) :
    countChar c (l1 ++ l2) = countChar c l1 + countChar c l2 := by
  simp [countChar, List.filter_append]

theorem countChar_reverse (c : Char) (l : List Char) :
    countChar c l.reverse = countChar c l := by
  simp [countChar, List.filter_reverse]

theorem countChar_ws_takeWhile (c : Char) (hc : isWsChar c = false) (l : List Char) :
    countChar c (l.takeWhile isWsChar) = 0 := by
  rw [countChar, List.length_eq_zero, List.filter_eq_nil_iff]
  intro a ha
  have hw := List.mem_takeWhile_imp ha
  simp only [decide_eq_true_eq]
  intro he
  subst he
  rw [hc] at hw
  cases hw

theorem countChar_dropWhile_ws (c : Char) (hc : isWsChar c = false) (l : List Char) :
    countChar c (l.dropWhile isWsChar) = countChar c l := by
  have htdw : l.takeWhile isWsChar ++ l.dropWhile isWsChar = l :=
    List.takeWhile_append_dropWhile isWsChar l
  conv_rhs => rw [← htdw]
  rw [countChar_append, countChar_ws_takeWhile c hc]
  omega

theorem countChar_trimChars (c : Char) (hc : isWsChar c = false) (l : List Char) :
    countChar c (trimChars l) = countChar c l := by
  rw [trimChars, countChar_reverse, countChar_dropWhile_ws c hc, countChar_reverse,
    countChar_dropWhile_ws c hc]

theorem stripBOM_eq_of_head (l : List Char)
    (h : l.head? = some '\x7b' ∨ l.head? = some '[') :
    stripBOM l = l := by
  cases l with
  | nil => rfl
  | cons c rest =>
    rcases h with h | h <;>
    · simp only [List.head?_cons, Option.some.injEq] at h
      subst h
      simp +decide [stripBOM]

theorem mem_trimChars {c : Char} {l : List Char} (h : c ∈ trimChars l) : c ∈ l := by
  rw [trimChars, List.mem_reverse] at h
  have h2 := (List.dropWhile_sublist _).subset h
  rw [List.mem_reverse] at h2
  exact (List.dropWhile_sublist _).subset h2

theorem trimChars_head (c : Char) (hw : isWsChar c = false) :
    ∀ l : List Char, l.head? = some c → (trimChars l).head? = some c := by
  intro l h
  cases l with
  | nil => cases h
  | cons d t =>
    simp only [List.head?_cons, Option.some.injEq] at h
    subst h
    rw [trimChars, List.dropWhile_cons, if_neg (by simp [hw]), List.reverse_cons,
      List.dropWhile_append]
    by_cases he : (t.reverse.dropWhile isWsChar).isEmpty
    · rw [if_pos he, List.dropWhile_cons, if_neg (by simp [hw])]
      rfl
    · rw [if_neg he, List.reverse_append]
      rfl

theorem fence_not_prefix (l : List Char) (h : '`' ∉ l) :
    ¬ (fenceMarker.isPrefixOf l = true) := by
  cases l with
  | nil => intro hc; cases hc
  | cons c t =>
    intro hc
    have hcc : c = '`' := by
      rw [fenceMarker] at hc
      rw [List.isPrefixOf] at hc
      have := (Bool.and_eq_true _ _).mp hc
      have h2 := this.1
      exact (beq_iff_eq.mp h2).symm
    exact h (by rw [← hcc]; exact List.mem_cons_self c t)

theorem stripFenceMarkers_eq (l : List Char) (h : '`' ∉ l) :
    stripFenceMarkers l = l := by
  have h1 := fence_not_prefix l h
  have h3 := fence_not_prefix l.reverse (fun hc => h (List.mem_reverse.mp hc))
  have hA : ¬ (fenceMarker.isPrefixOf l = true ∧
      (['j', 's', 'o', 'n'].isPrefixOf ((l.drop 3).map charLower)) = true) :=
    fun hc => h1 hc.1
  rw [stripFenceMarkers, if_neg hA, if_neg h1, if_neg h3]

theorem dropBeforeFirstOpen_eq (l : List Char)
    (h : l.head? = some '\x7b' ∨ l.head? = some '[') :
    dropBeforeFirstOpen l = l := by
  cases l with
  | nil => rcases h with h | h <;> cases h
  | cons c t =>
    have hc : (c = '\x7b' || c = '[') = true := by
      rcases h with h | h <;>
      · simp only [List.head?_cons, Option.some.injEq] at h
        subst h
        decide
    rw [dropBeforeFirstOpen, List.findIdx?_cons, if_pos hc]
    rfl

theorem countChar_rtcOnce (c : Char) (hc : c ≠ ',') :
    ∀ l, countChar c (rtcOnce l) = countChar c l := by
  intro l
  induction l with
  | nil => rfl
  | cons d t ih =>
    rw [rtcOnce]
    by_cases hd : d = ',' ∧ wsCloserFlag t
    · rw [if_pos hd, ih, countChar_cons, if_neg (fun he => hc (hd.1 ▸ he).symm)]
      omega
    · rw [if_neg hd, countChar_cons, countChar_cons, ih]

theorem countChar_rtcFix (c : Char) (hc : c ≠ ',') :
    ∀ fuel l, countChar c (rtcFix fuel l) = countChar c l := by
  intro fuel
  induction fuel with
  | zero => intro l; rfl
  | succ n ih =>
    intro l
    rw [rtcFix]
    by_cases h : (rtcOnce l).length = l.length
    · rw [if_pos h]
      exact countChar_rtcOnce c hc l
    · rw [if_neg h, ih (rtcOnce l)]
      exact countChar_rtcOnce c hc l

theorem countChar_sepFixF (c a b : Char) (hws : isWsChar c = false)
    (hcomma : c ≠ ',') (hnl : c ≠ '\n') :
    ∀ fuel l, countChar c (sepFixF a b [a, ',', '\n', b] fuel l) = countChar c l := by
  intro fuel
  induction fuel with
  | zero => intro l; rfl
  | succ n ih =>
    intro l
    cases l with
    | nil => rfl
    | cons d t =>
      rw [sepFixF]
      by_cases hd : d = a
      · rw [if_pos hd]
        cases hrest : t.dropWhile isWsChar with
        | nil =>
          rw [countChar_cons, countChar_cons, ih]
        | cons e rest3 =>
          dsimp only
          by_cases he : e = b
          · rw [if_pos he]
            have h0 : countChar c ([] : List Char) = 0 := rfl
            have hcm : ¬ (',' = c) := fun h2 => hcomma h2.symm
            have hnm : ¬ ('\n' = c) := fun h2 => hnl h2.symm
            have hrepl : countChar c [a, ',', '\n', b]
                = (if a = c then 1 else 0) + (if b = c then 1 else 0) := by
              rw [countChar_cons, countChar_cons, countChar_cons, countChar_cons,
                if_neg hcm, if_neg hnm, h0]
              omega
            have htdw : t.takeWhile isWsChar ++ t.dropWhile isWsChar = t :=
              List.takeWhile_append_dropWhile isWsChar t
            have hsplit : countChar c t
                = (if b = c then 1 else 0) + countChar c rest3 := by
              conv_lhs => rw [← htdw]
              rw [countChar_append, countChar_ws_takeWhile c hws, hrest,
                countChar_cons, he]
              omega
            rw [countChar_append, ih, hrepl, countChar_cons, hsplit, hd]
            omega
          · rw [if_neg he, countChar_cons, countChar_cons, ih]
      · rw [if_neg hd, countChar_cons, countChar_cons, ih]

theorem countChar_sepFix (c a b : Char) (hws : isWsChar c = false)
    (hcomma : c ≠ ',') (hnl : c ≠ '\n') (l : List Char) :
    countChar c (sepFix a b [a, ',', '\n', b] l) = countChar c l :=
  countChar_sepFixF c a b hws hcomma hnl (l.length + 1) l

theorem countChar_sepFixAll (c : Char) (hws : isWsChar c = false)
    (hcomma : c ≠ ',') (hnl : c ≠ '\n') (l : List Char) :
    countChar c (sepFixAll l) = countChar c l := by
  rw [sepFixAll]
  rw [countChar_sepFix c '"' '[' hws hcomma hnl,
    countChar_sepFix c '"' '\x7b' hws hcomma hnl,
    countChar_sepFix c ']' '"' hws hcomma hnl,
    countChar_sepFix c ']' '\x7b' hws hcomma hnl,
    countChar_sepFix c '\x7d' '"' hws hcomma hnl,
    countChar_sepFix c '\x7d' '\x7b' hws hcomma hnl]

theorem countChar_filter_keep (c : Char) (p : Char → Bool) (hp : p c = true) :
    ∀ l, countChar c (l.filter p) = countChar c l := by
  intro l
  induction l with
  | nil => rfl
  | cons d t ih =>
    rw [List.filter_cons]
    by_cases hd : p d = true
    · rw [if_pos hd, countChar_cons, countChar_cons, ih]
    · rw [if_neg hd, countChar_cons, ih]
      have hne : ¬ d = c := by
        intro he
        rw [he, hp] at hd
        exact hd rfl
      rw [if_neg hne]
      omega

theorem countChar_stripControl_brace (c : Char)
    (hmem : c = '\x7b' ∨ c = '\x7d' ∨ c = '[' ∨ c = ']') (l : List Char) :
    countChar c (stripControlChars l) = countChar c l := by
  rw [stripControlChars]
  apply countChar_filter_keep
  rcases hmem with h | h | h | h <;> subst h <;> decide

theorem countChar_closeUnterminated (c : Char) (hq : c ≠ '"') (l : List Char) :
    countChar c (closeUnterminatedString l) = countChar c l := by
  rw [closeUnterminatedString]
  by_cases h : cuqAux none l % 2 = 1
  · rw [if_pos h, countChar_append, countChar_cons,
      if_neg (fun h2 => hq h2.symm)]
    have h0 : countChar c ([] : List Char) = 0 := rfl
    rw [h0]
    omega
  · rw [if_neg h]

theorem countChar_repairStage_brace (c : Char)
    (hmem : c = '\x7b' ∨ c = '\x7d' ∨ c = '[' ∨ c = ']') (s : List Char)
    (hhead : s.head? = some '\x7b' ∨ s.head? = some '[')
    (hfence : '`' ∉ s) :
    countChar c (repairStage s) = countChar c s := by
  have hws : isWsChar c = false := by rcases hmem with h | h | h | h <;> subst h <;> decide
  have hcomma : c ≠ ',' := by rcases hmem with h | h | h | h <;> subst h <;> decide
  have hnl : c ≠ '\n' := by rcases hmem with h | h | h | h <;> subst h <;> decide
  have hq : c ≠ '"' := by rcases hmem with h | h | h | h <;> subst h <;> decide
  have hbom : stripBOM s = s := stripBOM_eq_of_head s hhead
  have hfence1 : '`' ∉ trimChars s := fun hm => hfence (mem_trimChars hm)
  have hhead1 : (trimChars s).head? = some '\x7b' ∨ (trimChars s).head? = some '[' := by
    rcases hhead with h | h
    · exact Or.inl (trimChars_head '\x7b' (by decide) s h)
    · exact Or.inr (trimChars_head '[' (by decide) s h)
  rw [repairStage]
  rw [hbom, stripFenceMarkers_eq _ hfence1, dropBeforeFirstOpen_eq _ hhead1]
  rw [countChar_closeUnterminated c hq]
  rw [countChar_stripControl_brace c hmem]
  rw [fixUnescapedQuotes]
  rw [countChar_sepFixAll c hws hcomma hnl]
  rw [countChar_rtcFix c hcomma]
  rw [countChar_trimChars c hws]

/-! # Claim theorems -/

/-- C3 (code bug): for the well-formed document `\x7b"a":1\x7d` wrapped in a fence
with a trailing comma before the closing brace, the repair chain truncates
the document to `\x7b"a"` (line 116's quote-truncation regex) and the whole
recovery chain then fails, returning no document at all — although the same
document without fence and trailing comma parses; the spec's §8 property says
extraction should have recovered a document equal to it. -/
theorem extraction_fails_on_fenced_trailing_comma :
    extractJson c3content = some ("\x7b\"a\"") ∧
    recoverDocument c3content = none ∧
    (jsonParse c3doc).isSome = true := ⟨rfl, rfl, rfl⟩

/-- C7: `isSearchUrl` accepts the `/busca/` example and the unparseable
string, `isProductUrl` accepts the `/dp/` example, and every URL the URL
model refuses to parse is classified as a search page (fail safe). -/
theorem url_classifier_examples :
    isSearchUrl ("https://store.example/busca/iphone") = true ∧
    isProductUrl ("https://store.example/dp/B0BN72DG3G") = true ∧
    isSearchUrl ("not a url") = true ∧
    ∀ s : String, parseURL s = none → isSearchUrl s = true := by
  refine ⟨rfl, rfl, rfl, ?_⟩
  intro s h
  by_cases h0 : s = ""
  · simp only [isSearchUrl, if_pos h0]
  · simp only [isSearchUrl, if_neg h0, h]

/-- C7 witness: the fail-safe conjunct applied at the concrete unparseable
string. -/
theorem url_classifier_examples_witness : isSearchUrl ("not a url") = true :=
  url_classifier_examples.2.2.2 ("not a url") (by rfl)

/-- C2 counterexample: the validated product of `c2json` carries a *present*
numeric price `value` of `0`, so the specification's formula awards the price
bonus (score `3/4 = 0.5 + 0.1 + 0.15`), but the code's JavaScript truthiness
test `price?.value || price?.min` does not (score `3/5 = 0.5 + 0.1`). -/
theorem score_zero_price_counterexample :
    productSchemaParse c2json = some c2prod ∧
    calculateRelevanceScore c2prod ≠ claimedScoreC2 c2prod := by
  refine ⟨rfl, ?_⟩
  have h1 : calculateRelevanceScore c2prod = 3/5 := by
    simp +decide [calculateRelevanceScore, c2prod, truthyNumOpt, truthyStrOpt]
    norm_num
  have h2 : claimedScoreC2 c2prod = 3/4 := by
    simp +decide [claimedScoreC2, c2prod]
    norm_num
  rw [h1, h2]
  norm_num

/-- C1 counterexample: in the SerpApi provider path the 22nd product of the
final output (within the schema's bound of 50 requested results) carries
`relevance_score = 1 - 21·0.05 = -1/20`, a value outside `[0,1]` taken from
the provider's result position, never overwritten by the normalization
pipeline. -/
theorem serpapi_score_counterexample :
    ((searchWithSerpApiProducts (some "br") c1Items 50).get? 21).map
        Product.relevance_score = some (some (-(1/20))) ∧
    ¬ ((0 : ℚ) ≤ -(1/20)) := by
  constructor
  · have htake : (searchWithSerpApiProducts (some "br") c1Items 50).get? 21
        = (serpApiMapProducts (some "br") c1Items).get? 21 := by
      rw [searchWithSerpApiProducts]
      exact List.get?_take (by norm_num)
    rw [htake, serpApiMapProducts, serpMapAux_get]
    have hitem : c1Items.get? 21 = some c1Item := by decide
    rw [hitem]
    simp only [Option.map_some']
    have h2 : (serpApiToProduct (some "br") (0 + 21) c1Item).relevance_score
        = some (1 - ((21 : ℕ) : ℚ) * (5/100)) := rfl
    rw [h2]
    norm_num
  · norm_num

/-- C4: on any raw record list, validation keeps exactly the records passing
the per-record contract, in their original order; it reports one diagnostic
per invalid record carrying that record's 1-based position (`productError`
renders index `i` as position `i + 1`); the totals partition the input, and
the output never exceeds the input length.  (Validation is a total function:
it never raises.) -/
theorem parseProducts_validation_partition (rs : List Json) :
    (validateRecords rs).1 = rs.filterMap productSchemaParse ∧
    (validateRecords rs).2 =
      ((List.enumFrom 0 rs).filter (fun e => (productSchemaParse e.2).isNone)).map
        (fun e => productError e.1) ∧
    (validateRecords rs).1.length + (validateRecords rs).2.length = rs.length ∧
    (validateRecords rs).1.length ≤ rs.length := by
  have h := validateRecordsAux_spec rs 0
  have hlen := validate_lengths rs 0
  refine ⟨?_, ?_, ?_, ?_⟩
  · unfold validateRecords
    rw [h]
  · unfold validateRecords
    rw [h]
  · exact hlen
  · unfold validateRecords
    omega

/-- C4 witness: one invalid record at 1-based position 1, one valid record
surviving. -/
theorem parseProducts_validation_witness :
    (validateRecords c4list).1 = [{ name := "Fone X" }] ∧
    (validateRecords c4list).2 = ["Product 1 invalid"] := by
  obtain ⟨h1, h2, h3, h4⟩ := parseProducts_validation_partition c4list
  exact ⟨h1.trans (by decide), h2.trans (by decide)⟩

/-- C9: image resolution preserves the list's length and order, leaves every
record from index 5 on completely unchanged, and changes nothing but
`image_url` on the processed records. -/
theorem resolveProductImages_frame (fetch : String → Option String)
    (cache : List (String × Option String)) (products : List Product)
    (existingImages : Option (List String)) :
    (resolveProductImages fetch cache products existingImages).products.length
        = products.length ∧
    (∀ j : Nat, 5 ≤ j →
      (resolveProductImages fetch cache products existingImages).products.get? j
        = products.get? j) ∧
    (∀ j : Nat,
      ((resolveProductImages fetch cache products existingImages).products.get? j).map
          eraseImage = (products.get? j).map eraseImage) := by
  obtain ⟨hlen, hget⟩ := resolveAux_spec fetch products 0
    { cache := cache, images := existingImages.getD [] }
  exact ⟨hlen, fun j hj => (hget j).1 (by omega), fun j => (hget j).2⟩

/-- C9 witness: with six products and a failing fetch oracle, the record at
index 5 is returned untouched. -/
theorem resolveProductImages_frame_witness :
    (resolveProductImages (fun _ => none) [] (List.replicate 6 pNoUrl) none).products.get? 5
      = some pNoUrl :=
  ((resolveProductImages_frame (fun _ => none) [] (List.replicate 6 pNoUrl) none).2.1 5
    (by norm_num)).trans (by rfl)

/-- C10: the URL filter partitions its input (kept + reported = input
length), `invalidCount` is the length of `invalidUrls`, the kept records are
a sublist of the input (original relative order), and every record without a
source URL is kept. -/
theorem filterProductsByUrl_partition (products : List Product) :
    (filterProductsByUrl products).validProducts.length
        + (filterProductsByUrl products).invalidUrls.length = products.length ∧
    (filterProductsByUrl products).invalidCount
        = (filterProductsByUrl products).invalidUrls.length ∧
    List.Sublist (filterProductsByUrl products).validProducts products ∧
    ∀ p ∈ products, p.source.bind Source.url = none →
      p ∈ (filterProductsByUrl products).validProducts := by
  obtain ⟨h1, h2, h3⟩ := urlFilterAux_spec products
  exact ⟨h1, rfl, h2, h3⟩

/-- C10 witness: a product without URL is kept, a search-URL product is
reported, and the counts partition the two-element input. -/
theorem filterProductsByUrl_partition_witness :
    (filterProductsByUrl c10list).validProducts.length
        + (filterProductsByUrl c10list).invalidUrls.length = 2 ∧
    pNoUrl ∈ (filterProductsByUrl c10list).validProducts := by
  obtain ⟨h1, h2, h3, h4⟩ := filterProductsByUrl_partition c10list
  exact ⟨h1.trans (by rfl), h4 pNoUrl (by simp [c10list]) rfl⟩

theorem insertDesc_perm (p : Product) (l : List Product) :
    List.Perm (insertDesc p l) (p :: l) := by
  induction l with
  | nil => exact List.Perm.refl _
  | cons q rest ih =>
    by_cases hc : scoreKey q < scoreKey p
    · simp [insertDesc, hc]
    · simp only [insertDesc, if_neg hc]
      exact (ih.cons q).trans (List.Perm.swap p q rest)

theorem sortByScoreDesc_perm (l : List Product) :
    List.Perm (sortByScoreDesc l) l := by
  induction l with
  | nil => exact List.Perm.refl _
  | cons p rest ih => exact (insertDesc_perm p (sortByScoreDesc rest)).trans (ih.cons p)

theorem calculateRelevanceScore_bounds (p : Product) :
    1/2 ≤ calculateRelevanceScore p ∧ calculateRelevanceScore p ≤ 1 := by
  unfold calculateRelevanceScore
  dsimp only
  constructor
  · refine le_min ?_ (by norm_num)
    cases hs : p.specs <;> dsimp only <;> split_ifs <;> norm_num
  · exact min_le_right _ _

theorem resolveProducts_mem_shape (fetch : String → Option String)
    (cache : List (String × Option String)) (products : List Product)
    (existing : Option (List String)) :
    ∀ p ∈ (resolveProductImages fetch cache products existing).products,
      ∃ y ∈ products, eraseImage p = eraseImage y := by
  intro p hp
  have hp2 : p ∈ (resolveAux fetch 0 products
      { cache := cache, images := existing.getD [] }).1 := hp
  obtain ⟨j, hj⟩ := List.mem_iff_get?.mp hp2
  have hframe := ((resolveAux_spec fetch products 0
      { cache := cache, images := existing.getD [] }).2 j).2
  rw [hj] at hframe
  cases hy : products.get? j with
  | none =>
    rw [hy] at hframe
    cases hframe
  | some y =>
    rw [hy] at hframe
    simp only [Option.map_some', Option.some.injEq] at hframe
    exact ⟨y, List.mem_iff_get?.mpr ⟨j, hy⟩, hframe⟩

theorem searchWithGeminiProducts_shape (fetch : String → Option String)
    (cache : List (String × Option String)) (parsed : List Product)
    (llmImages : Option (List String)) (maxResults : Nat) :
    ∀ p ∈ searchWithGeminiProducts fetch cache parsed llmImages maxResults,
      ∃ q : Product, eraseImage p = eraseImage (enrichOne q) := by
  intro p hp
  unfold searchWithGeminiProducts at hp
  by_cases hne : parsed.isEmpty
  · rw [if_pos hne] at hp
    cases hp
  · rw [if_neg hne] at hp
    dsimp only at hp
    obtain ⟨y, hyml, hye⟩ := resolveProducts_mem_shape fetch cache
      ((filterProductsByUrl (processProducts parsed)).validProducts.take maxResults)
      llmImages p hp
    have hykept : y ∈ (filterProductsByUrl (processProducts parsed)).validProducts :=
      (List.take_sublist _ _).subset hyml
    have hyproc : y ∈ processProducts parsed :=
      ((urlFilterAux_spec (processProducts parsed)).2.1).subset hykept
    have hyenrich : y ∈ enrichProducts (deduplicateProducts (filterNonProducts parsed)) :=
      (sortByScoreDesc_perm _).subset hyproc
    obtain ⟨q, hq, hqe⟩ := List.mem_map.mp hyenrich
    exact ⟨q, by rw [hye, ← hqe]⟩

/-- C1 as amended: in the Gemini path every output product is an enriched
record up to image resolution, so its `relevance_score` is the normalization
pipeline's computed score and lies in `[0,1]`; in the SerpApi path the
`relevance_score` of every mapped product is `1 - 0.05·position`, taken from
the provider's result position and never overwritten. -/
theorem relevance_score_by_provider :
    (∀ (fetch : String → Option String) (cache : List (String × Option String))
       (parsed : List Product) (llmImages : Option (List String)) (maxResults : Nat),
       ∀ p ∈ searchWithGeminiProducts fetch cache parsed llmImages maxResults,
         ∃ q : Product, eraseImage p = eraseImage (enrichOne q) ∧
           p.relevance_score = some (calculateRelevanceScore q) ∧
           0 ≤ calculateRelevanceScore q ∧ calculateRelevanceScore q ≤ 1) ∧
    (∀ (country : Option String) (items : List SerpApiProduct) (i : Nat),
       ((serpApiMapProducts country items).get? i).map Product.relevance_score
         = (items.get? i).map (fun _ => some (1 - (i : ℚ) * (5/100)))) := by
  constructor
  · intro fetch cache parsed llmImages maxResults p hp
    obtain ⟨q, hq⟩ := searchWithGeminiProducts_shape fetch cache parsed llmImages
      maxResults p hp
    refine ⟨q, hq, ?_, ?_, ?_⟩
    · have h2 := congrArg Product.relevance_score hq
      simpa [eraseImage, enrichOne] using h2
    · exact le_trans (by norm_num) (calculateRelevanceScore_bounds q).1
    · exact (calculateRelevanceScore_bounds q).2
  · intro country items i
    rw [serpApiMapProducts, serpMapAux_get]
    cases hg : items.get? i with
    | none => rfl
    | some item =>
      simp only [Option.map_some']
      have h3 : (serpApiToProduct country (0 + i) item).relevance_score
          = some (1 - ((0 + i : ℕ) : ℚ) * (5/100)) := rfl
      rw [h3]
      norm_num

/-- C1 witness: the Gemini conjunct applied to a concrete one-product run
with a failing fetch oracle. -/
theorem relevance_score_by_provider_witness :
    ∃ q : Product, eraseImage (enrichOne pPlain) = eraseImage (enrichOne q) ∧
      (enrichOne pPlain).relevance_score = some (calculateRelevanceScore q) ∧
      0 ≤ calculateRelevanceScore q ∧ calculateRelevanceScore q ≤ 1 :=
  relevance_score_by_provider.1 (fun _ => none) [] [pPlain] none 10 (enrichOne pPlain)
    (by
      rw [show searchWithGeminiProducts (fun _ => none) [] [pPlain] none 10
          = [enrichOne pPlain] from rfl]
      exact List.mem_cons_self _ _)

theorem isValidUrlZod_empty : isValidUrlZod "" = false := by decide

/-- C2 as amended: on every product satisfying the validated-record contract,
the computed relevance score equals the specification's formula with the
price bonus requiring a *non-zero* `value` or `min` (all other conditions as
the specification words them). -/
theorem calculateRelevanceScore_amended (p : Product) (h : validProduct p = true) :
    calculateRelevanceScore p = claimedScoreC2Amended p := by
  have hname : (p.name ≠ "" ∧ p.name.length > 5) ↔ (p.name.length > 5) := by
    constructor
    · exact fun hh => hh.2
    · intro hl
      refine ⟨?_, hl⟩
      intro he
      rw [he] at hl
      simp at hl
  have hsrc : truthyStrOpt (p.source.bind Source.url) =
      (p.source.bind Source.url).isSome := by
    rcases hs : p.source with _ | src
    · rfl
    · rcases hu : src.url with _ | u
      · simp [truthyStrOpt, hs, hu]
      · have hv : isValidUrlZod u = true := by
          rw [validProduct] at h
          simp only [hs, hu, Bool.and_eq_true] at h
          exact h.1.1.1.2.2
        have hne : u ≠ "" := by
          intro he
          rw [he] at hv
          rw [isValidUrlZod_empty] at hv
          cases hv
        simp [truthyStrOpt, hs, hu, hne]
  unfold calculateRelevanceScore claimedScoreC2Amended
  dsimp only
  rw [hsrc]
  rcases hdd : p.description with _ | d
  · rw [if_neg (by decide : ¬ ((truthyStrOpt none && decide (((none : Option String).getD "").length > 20)) = true))]
    by_cases h5 : p.name.length > 5
    · rw [if_pos (hname.mpr h5), if_pos h5]
    · rw [if_neg (fun hc => h5 (hname.mp hc)), if_neg h5]
  · have hdesc : (truthyStrOpt (some d) && decide (((some d : Option String).getD "").length > 20))
        = decide (d.length > 20) := by
      by_cases h20 : d.length > 20
      · have hne : d ≠ "" := by
          intro he
          rw [he] at h20
          simp at h20
        simp [truthyStrOpt, hne, h20]
      · simp [truthyStrOpt, h20]
    rw [hdesc]
    simp only [decide_eq_true_eq]
    by_cases h5 : p.name.length > 5
    · rw [if_pos (hname.mpr h5), if_pos h5]
    · rw [if_neg (fun hc => h5 (hname.mp hc)), if_neg h5]

/-- C2 witness: the amended formula evaluated on a concrete valid product. -/
theorem calculateRelevanceScore_amended_witness :
    calculateRelevanceScore pNoUrl = claimedScoreC2Amended pNoUrl :=
  calculateRelevanceScore_amended pNoUrl (by decide)


theorem resolveAux_images (fetch : String → Option String) :
    ∀ (ps : List Product) (i : Nat) (st : ResolveState),
      (resolveAux fetch i ps st).2.images
        = (resolvedImageSeq fetch i ps st.cache).foldl insertIfAbsent st.images := by
  intro ps
  induction ps with
  | nil => intro i st; rfl
  | cons p rest ih =>
    intro i st
    by_cases hi : 5 ≤ i
    · simp [resolveAux, resolvedImageSeq, hi]
    · simp only [resolveAux, resolvedImageSeq, if_neg hi]
      cases hr : (resolveOne fetch st.cache p).2.2 with
      | some img =>
        have := ih (i + 1) (resolveNextState fetch st p)
        rw [this]
        simp [resolveNextState, hr, insertIfAbsent, List.foldl_cons]
      | none =>
        have := ih (i + 1) (resolveNextState fetch st p)
        rw [this]
        simp [resolveNextState, hr]

theorem foldl_insertIfAbsent (s : List String) :
    ∀ acc : List String,
      s.foldl insertIfAbsent acc
        = acc ++ (dedupFirst s).filter (fun x => !acc.contains x) := by
  induction s with
  | nil => intro acc; simp [dedupFirst]
  | cons x s ih =>
    intro acc
    by_cases hx : acc.contains x
    · have hxm : x ∈ acc := List.elem_iff.mp hx
      have h1 : insertIfAbsent acc x = acc := by
        simp only [insertIfAbsent, hx, if_true]
      rw [List.foldl_cons, h1, ih acc]
      congr 1
      rw [dedupFirst]
      rw [List.filter_cons]
      have hxf : (!acc.contains x) = false := by simp [hxm]
      rw [hxf]
      simp only [Bool.false_eq_true, if_false]
      rw [List.filter_filter]
      apply List.filter_congr
      intro y hy
      by_cases hyx : y = x
      · subst hyx
        simp [hxm]
      · simp [hyx]
    · have hxm : x ∉ acc := fun hc => hx (List.elem_iff.mpr hc)
      have h1 : insertIfAbsent acc x = acc ++ [x] := by
        simp only [insertIfAbsent]
        rw [if_neg hx]
      rw [List.foldl_cons, h1, ih (acc ++ [x])]
      rw [dedupFirst, List.filter_cons]
      have hxf : (!acc.contains x) = true := by simp [hxm]
      rw [hxf]
      simp only [if_true]
      rw [List.append_assoc]
      congr 1
      show [x] ++ _ = _
      rw [List.filter_filter]
      simp only [List.cons_append, List.nil_append]
      congr 1
      apply List.filter_congr
      intro y hy
      by_cases hyx : y = x
      · subst hyx
        simp [hxm]
      · simp [hyx]

theorem dedupFirst_nodup {α : Type} [DecidableEq α] (l : List α) :
    (dedupFirst l).Nodup := by
  induction l with
  | nil => exact List.nodup_nil
  | cons x t ih =>
    rw [dedupFirst]
    refine List.Nodup.cons ?_ (ih.filter _)
    intro hmem
    have hne := List.of_mem_filter hmem
    simp at hne

/-- C8 as amended: the resolver's image list is the provider-supplied list
(copied verbatim, so duplicates in it survive) followed by the truthy
resolved images in first-seen order, deduplicated and with anything already
in the provider list skipped; hence the whole list has no duplicates
whenever the provider-supplied list has none. -/
theorem resolveProductImages_images_spec (fetch : String → Option String)
    (cache : List (String × Option String)) (products : List Product)
    (existingImages : Option (List String)) :
    (resolveProductImages fetch cache products existingImages).images
      = existingImages.getD [] ++
        (dedupFirst (resolvedImageSeq fetch 0 products cache)).filter
          (fun img => !(existingImages.getD []).contains img) ∧
    ((existingImages.getD []).Nodup →
      (resolveProductImages fetch cache products existingImages).images.Nodup) := by
  have h1 : (resolveProductImages fetch cache products existingImages).images
      = (resolvedImageSeq fetch 0 products cache).foldl insertIfAbsent
          (existingImages.getD []) :=
    resolveAux_images fetch products 0
      { cache := cache, images := existingImages.getD [] }
  rw [h1, foldl_insertIfAbsent]
  refine ⟨rfl, ?_⟩
  intro hnd
  refine List.Nodup.append hnd ((dedupFirst_nodup _).filter _) ?_
  intro a ha hb
  have hf := List.of_mem_filter hb
  simp only [Bool.not_eq_true'] at hf
  have hc : (existingImages.getD []).contains a = true := List.elem_iff.mpr ha
  rw [hc] at hf
  cases hf

/-- C8 counterexample: with duplicate provider-supplied images and nothing to
resolve, the returned image list keeps the duplicate — the merged list is not
deduplicated as claimed. -/
theorem resolve_images_duplicates_counterexample :
    (resolveProductImages (fun _ => none) [] [] (some ["a", "a"])).images
      = ["a", "a"] ∧
    ¬ (resolveProductImages (fun _ => none) [] [] (some ["a", "a"])).images.Nodup := by
  refine ⟨rfl, ?_⟩
  rw [show (resolveProductImages (fun _ => none) [] [] (some ["a", "a"])).images
      = ["a", "a"] from rfl]
  decide

/-- C8 witness: a duplicate-free provider list and one resolved image merge
into a duplicate-free list in first-seen order. -/
theorem resolveProductImages_images_spec_witness :
    (resolveProductImages (fun _ => none) [] [pWithImage] (some ["a"])).images
      = ["a", "imgZ"] ∧
    (resolveProductImages (fun _ => none) [] [pWithImage] (some ["a"])).images.Nodup := by
  have h := resolveProductImages_images_spec (fun _ => none) [] [pWithImage] (some ["a"])
  exact ⟨h.1.trans (by rfl), h.2 (by decide)⟩

/-- C5: `deduplicateProducts` keys each record by its lowercased,
whitespace-collapsed, trimmed name; among the records sharing a key the one
with the highest computed relevance score survives (ties keep the
first-seen), and the survivors appear in first-seen key order — stated as
equality with the specification-side `dedupSpecC5`. -/
theorem deduplicateProducts_spec (products : List Product) :
    deduplicateProducts products = dedupSpecC5 products := by
  rw [deduplicateProducts, foldl_dedupStep, dedupAssoc, dedupSpecC5,
    List.map_filterMap]
  apply List.filterMap_congr
  intro k hk
  cases h : (products.filter (fun q => normalizedName q = k)).argmax
      calculateRelevanceScore <;> simp [h]

/-- C5 witness: the specification's own example — two records whose names
differ only in case collapse to one, the higher-scoring (more complete)
record surviving. -/
theorem deduplicateProducts_spec_witness :
    deduplicateProducts [c5a, c5b] = [c5b] := by
  have hs : calculateRelevanceScore c5a < calculateRelevanceScore c5b := by
    have h1 : calculateRelevanceScore c5a = 3/5 := by
      simp +decide [calculateRelevanceScore, c5a, truthyNumOpt, truthyStrOpt]
      norm_num
    have h2 : calculateRelevanceScore c5b = 3/4 := by
      simp +decide [calculateRelevanceScore, c5b, truthyNumOpt, truthyStrOpt]
      norm_num
    rw [h1, h2]
    norm_num
  have h0 : dedupStep [] c5a = [(normalizedName c5a, c5a)] := rfl
  have hget : jsMapGet [(normalizedName c5a, c5a)] (normalizedName c5b)
      = some c5a := rfl
  have h1 : dedupStep [(normalizedName c5a, c5a)] c5b
      = [(normalizedName c5b, c5b)] := by
    simp only [dedupStep, hget]
    rw [if_pos hs]
    rfl
  show ([c5a, c5b].foldl dedupStep []).map (fun e => e.2) = [c5b]
  rw [List.foldl_cons, List.foldl_cons, List.foldl_nil, h0, h1]
  rfl

/-- C6: on a document that starts with an opening brace or bracket and
carries no fence marker, the repair chain's output is the repaired document
followed by exactly `openBrackets − closeBrackets` closing `]` characters
and then exactly `openBraces − closeBraces` closing `\x7d` characters — the
bracket/brace counts being those of the input document, and all appended
brackets preceding all appended braces. -/
theorem fixCommonJsonIssues_appends_missing_closers (s : String)
    (hhead : s.data.head? = some '\x7b' ∨ s.data.head? = some '[')
    (hfence : '`' ∉ s.data) :
    (fixCommonJsonIssues s).data
      = truncateAfterLastQuote (stripTrailingCommaEnd (repairStage s.data))
        ++ List.replicate (countChar '[' s.data - countChar ']' s.data) ']'
        ++ List.replicate (countChar '\x7b' s.data - countChar '\x7d' s.data) '\x7d' := by
  show fixChain s.data = _
  rw [fixChain]
  rw [countChar_repairStage_brace '[' (by decide) s.data hhead hfence,
    countChar_repairStage_brace ']' (by decide) s.data hhead hfence,
    countChar_repairStage_brace '\x7b' (by decide) s.data hhead hfence,
    countChar_repairStage_brace '\x7d' (by decide) s.data hhead hfence]

/-- C6 witness: the concrete truncated document gains exactly one `]` and
then one `\x7d`, in that order, and nothing else. -/
theorem fixCommonJsonIssues_appends_witness :
    (fixCommonJsonIssues c6doc).data
      = "\x7b\"a\":[\"b\",\"c\"".data ++ List.replicate 1 ']'
        ++ List.replicate 1 '\x7d' := by
  have h := fixCommonJsonIssues_appends_missing_closers c6doc (Or.inl rfl) (by decide)
  rw [h]
  rfl

end SearchAI
